import Mathlib

/-!
Verification of the PALADIN evidence-graph verifier against its
natural-language specification.  The Python source under `src/` is shallowly
embedded below: pure Python functions become Lean functions, Python `dict`s
become association lists, Python exceptions become `Except` values, and the
CPython extension points that the code relies on (string methods, `hashlib`,
the arithmetic fragment of `ast.parse`) are reimplemented as executable Lean
definitions scoped to the behaviour the repository exercises.
-/

namespace Paladin

/-! ### Python string primitives (ASCII fragment)

The repository only ever manipulates ASCII text (ids, edge labels, spans and
claims in the tests).  We model `str.lower`, `str.split()` and the `in`
substring test on that fragment: `str.lower` also lowercases non-ASCII
letters and `str.split()` also splits on Unicode whitespace, but no claim
below involves such characters.
-/

/-- Characters `str.split()` treats as whitespace (ASCII fragment). -/
def pyIsSpace (c : Char) : Bool :=
  c = ' ' || c = '\t' || c = '\n' || c = '\r' || c = '\x0b' || c = '\x0c'

/-- `str.lower` on an ASCII character. -/
def asciiLower (c : Char) : Char :=
  if 'A' ≤ c && c ≤ 'Z' then Char.ofNat (c.toNat + 32) else c

/-- `str.lower` on a string (ASCII fragment). -/
def pyLower (s : String) : String :=
  String.mk (s.data.map asciiLower)

/-- Worker for `pySplit`: `cur` holds the current run of non-space
characters in reverse order. -/
def pySplitGo : List Char → List Char → List String
  | [], [] => []
  | [], cur => [String.mk cur.reverse]
  | c :: rest, cur =>
    if pyIsSpace c then
      if cur.isEmpty then pySplitGo rest []
      else String.mk cur.reverse :: pySplitGo rest []
    else pySplitGo rest (c :: cur)

/-- Python `str.split()` with no separator: maximal nonempty runs of
non-whitespace characters. -/
def pySplit (s : String) : List String :=
  pySplitGo s.data []

/-- Python `needle in hay` substring test. -/
def strContains (hay needle : String) : Bool :=
  (List.range (hay.data.length + 1)).any
    (fun i => needle.data.isPrefixOf (hay.data.drop i))

/-! ### `src/verifier/truthlens_adapter.py` -/

/-- `_tokenize`: `[t.lower() for t in text.split() if t]`. -/
def _tokenize (text : String) : List String :=
  ((pySplit text).filter (fun t => t ≠ "")).map pyLower

/-- The negation-marker set of `get_support_level` (a Python `set`; only
membership is ever used, so a list is a faithful model). -/
def negations : List String := ["not", "no", "never"]

/-- `get_support_level` from `truthlens_adapter.py`.  The source compares
`matches / len(h_tokens) >= 0.5` and `<= 0.1` on IEEE doubles; for token
counts realisable as list lengths the `0.5` comparison agrees with the exact
test `2 * matches ≥ len`, and both sides of the `0.1` comparison return
`"unverifiable"`, so the branch structure below is exact. -/
def get_support_level (premise hypothesis : String) : String :=
  if (_tokenize hypothesis).isEmpty then "unverifiable"
  else if negations.any (fun neg =>
      (_tokenize hypothesis).any (fun tok => strContains (pyLower premise) (neg ++ " " ++ tok))) then
    "contradicted"
  else if 2 * ((_tokenize hypothesis).filter
      (fun t => (_tokenize premise).contains t)).length ≥ (_tokenize hypothesis).length then
    "supported"
  else if 10 * ((_tokenize hypothesis).filter
      (fun t => (_tokenize premise).contains t)).length ≤ (_tokenize hypothesis).length then
    "unverifiable"
  else "unverifiable"

/-- Number of hypothesis tokens present in the premise token list (the
numerator of the classifier's support ratio). -/
def supportMatches (premise hypothesis : String) : Nat :=
  ((_tokenize hypothesis).filter (fun t => (_tokenize premise).contains t)).length

/-- The contradiction test of the classifier, stated as the spec states it:
some marker and some hypothesis token whose two-word phrase occurs in the
lowercased premise. -/
def hasNegationPhrase (premise hypothesis : String) : Prop :=
  ∃ neg ∈ negations, ∃ tok ∈ _tokenize hypothesis,
    strContains (pyLower premise) (neg ++ " " ++ tok) = true

instance (p h : String) : Decidable (hasNegationPhrase p h) := by
  unfold hasNegationPhrase; infer_instance

/-! ### `src/verifier/numeric_time_check.py`

The checker parses its input with `ast.parse(code, mode="eval")` and walks
the tree with `_eval_node`.  We embed the AST fragment that can reach
`_eval_node`: literal constants, unary operations, binary operations, and a
catch-all constructor for every node type outside `_ALLOWED_NODES` (the code
only ever inspects the *type* of such a node before raising, so their fields
need not be modelled).  Values are Python ints and strs; `float` results
(true division, float literals) are outside the embedding and are modelled
as evaluation failures, which no claim below depends on.
-/

/-- A Python value that can appear in a `Constant` node or as an evaluation
result in the integer/string fragment. -/
inductive PyVal where
  | intV : Int → PyVal
  | strV : String → PyVal
deriving DecidableEq, Repr

/-- Unary operator tags (`ast.USub`, `ast.UAdd`, `ast.Invert`, `ast.Not`).
`_eval_node` never inspects this field. -/
inductive PyUOp where
  | uSub | uAdd | invert | notOp
deriving DecidableEq, Repr

/-- Binary operator tags for `ast.BinOp`. -/
inductive PyBOp where
  | addOp | subOp | multOp | divOp | floorDivOp | modOp | powOp
deriving DecidableEq, Repr

/-- Expression nodes reaching `_eval_node`.  `disallowed kind` stands for
any node whose type is not in `_ALLOWED_NODES` (`ast.Call`, `ast.Name`,
`ast.Compare`, ...); the string records the node type name. -/
inductive PyAST where
  | constant : PyVal → PyAST
  | unaryOp : PyUOp → PyAST → PyAST
  | binOp : PyAST → PyBOp → PyAST → PyAST
  | disallowed : String → PyAST
deriving DecidableEq, Repr

/-- Unary minus as applied by `_eval_node` (`-value`): negation of an int;
a `TypeError` on a str. -/
def pyNeg : PyVal → Except String PyVal
  | .intV n => .ok (.intV (-n))
  | .strV _ => .error "TypeError: bad operand type for unary -"

/-- The `_OPS` table applied to two values.  Ints follow Python semantics
exactly (`//` and `%` floor towards minus infinity, zero divisors raise);
`+` on two strs concatenates; true division of ints yields a Python float
and is outside this embedding, so it is modelled as a failure (no claim
depends on a successful `/`); remaining mixed-type cases raise in Python
and are failures here too. -/
def pyBinop : PyBOp → PyVal → PyVal → Except String PyVal
  | .addOp, .intV a, .intV b => .ok (.intV (a + b))
  | .addOp, .strV a, .strV b => .ok (.strV (a ++ b))
  | .subOp, .intV a, .intV b => .ok (.intV (a - b))
  | .multOp, .intV a, .intV b => .ok (.intV (a * b))
  | .divOp, _, _ => .error "float true division is not modelled"
  | .floorDivOp, .intV a, .intV b =>
    if b = 0 then .error "ZeroDivisionError" else .ok (.intV (Int.fdiv a b))
  | .modOp, .intV a, .intV b =>
    if b = 0 then .error "ZeroDivisionError" else .ok (.intV (Int.fmod a b))
  | _, _, _ => .error "TypeError: unsupported operand types"

/-- `_eval_node` from `numeric_time_check.py`.  Faithfully to the source:
the type-membership test against `_ALLOWED_NODES` rejects `disallowed`
nodes; a `UnaryOp` is evaluated as `-_eval_node(operand)` *without
inspecting its operator*; a `BinOp` looks its operator up in `_OPS`, a
table that omits `ast.Pow` even though `ast.Pow` is in `_ALLOWED_NODES`,
so `**` raises `Unsupported operator`. -/
def _eval_node : PyAST → Except String PyVal
  | .constant v => .ok v
  | .unaryOp _ e => do
    let v ← _eval_node e
    pyNeg v
  | .binOp l o r => do
    let lv ← _eval_node l
    let rv ← _eval_node r
    match o with
    | .powOp => .error "Unsupported operator"
    | _ => pyBinop o lv rv
  | .disallowed kind => .error ("Disallowed AST node " ++ kind)

/-- Python `str()` of a value in the fragment (`str` of an int is its
decimal form with a leading minus for negatives; `str` of a str is
itself). -/
def pyStr : PyVal → String
  | .intV n => toString n
  | .strV s => s

/-! A recursive-descent parser for the arithmetic fragment of Python's
expression grammar: decimal int literals, unary `+ - ~`, binary
`+ - * / // % **` with Python precedence and associativity, parentheses,
and spaces/tabs between tokens.  Strings outside this fragment parse to
`none`; every such string either fails `ast.parse` or evaluates through a
node outside the integer fragment, and no claim below depends on one.
All functions are fueled; the fuel chosen in `pyParse` exceeds any
possible number of recursive calls, and the concrete evaluations in the
theorems below never exhaust it. -/

/-- Skip spaces and tabs. -/
def skipWs (cs : List Char) : List Char :=
  cs.dropWhile (fun c => c = ' ' || c = '\t')

/-- Lex a decimal integer literal.  Python rejects multi-digit literals
with a leading zero unless all digits are zero (`00` is legal, `01` is a
syntax error). -/
def lexInt (cs : List Char) : Option (Int × List Char) :=
  let digits := cs.takeWhile Char.isDigit
  let rest := cs.dropWhile Char.isDigit
  if digits.isEmpty then none
  else if digits.head? = some '0' && digits.length > 1 && digits.any (· ≠ '0') then none
  else some ((digits.foldl (fun acc c => 10 * acc + (c.toNat - 48)) 0 : Nat), rest)

mutual

/-- `expr := term (('+' | '-') term)*` (left associative). -/
def parseAddSub (fuel : Nat) (cs : List Char) : Option (PyAST × List Char) :=
  match fuel with
  | 0 => none
  | fuel + 1 => do
    let (l, cs) ← parseMulDiv fuel cs
    parseAddSubRest fuel l cs

/-- Left-associative continuation of `parseAddSub`. -/
def parseAddSubRest (fuel : Nat) (acc : PyAST) (cs : List Char) :
    Option (PyAST × List Char) :=
  match fuel with
  | 0 => none
  | fuel + 1 =>
    match skipWs cs with
    | '+' :: cs => do
      let (r, cs) ← parseMulDiv fuel cs
      parseAddSubRest fuel (.binOp acc .addOp r) cs
    | '-' :: cs => do
      let (r, cs) ← parseMulDiv fuel cs
      parseAddSubRest fuel (.binOp acc .subOp r) cs
    | _ => some (acc, skipWs cs)

/-- `term := factor (('*' | '/' | '//' | '%') factor)*` (left
associative). -/
def parseMulDiv (fuel : Nat) (cs : List Char) : Option (PyAST × List Char) :=
  match fuel with
  | 0 => none
  | fuel + 1 => do
    let (l, cs) ← parseUnary fuel cs
    parseMulDivRest fuel l cs

/-- Left-associative continuation of `parseMulDiv`. -/
def parseMulDivRest (fuel : Nat) (acc : PyAST) (cs : List Char) :
    Option (PyAST × List Char) :=
  match fuel with
  | 0 => none
  | fuel + 1 =>
    match skipWs cs with
    | '/' :: '/' :: cs => do
      let (r, cs) ← parseUnary fuel cs
      parseMulDivRest fuel (.binOp acc .floorDivOp r) cs
    | '/' :: cs => do
      let (r, cs) ← parseUnary fuel cs
      parseMulDivRest fuel (.binOp acc .divOp r) cs
    | '%' :: cs => do
      let (r, cs) ← parseUnary fuel cs
      parseMulDivRest fuel (.binOp acc .modOp r) cs
    | '*' :: '*' :: _ => some (acc, skipWs cs)
    | '*' :: cs => do
      let (r, cs) ← parseUnary fuel cs
      parseMulDivRest fuel (.binOp acc .multOp r) cs
    | _ => some (acc, skipWs cs)

/-- `factor := ('+' | '-' | '~') factor | power`. -/
def parseUnary (fuel : Nat) (cs : List Char) : Option (PyAST × List Char) :=
  match fuel with
  | 0 => none
  | fuel + 1 =>
    match skipWs cs with
    | '+' :: cs => do
      let (e, cs) ← parseUnary fuel cs
      some (.unaryOp .uAdd e, cs)
    | '-' :: cs => do
      let (e, cs) ← parseUnary fuel cs
      some (.unaryOp .uSub e, cs)
    | '~' :: cs => do
      let (e, cs) ← parseUnary fuel cs
      some (.unaryOp .invert e, cs)
    | cs => parsePower fuel cs

/-- `power := atom ['**' factor]` (right associative; the exponent may
start with a unary operator). -/
def parsePower (fuel : Nat) (cs : List Char) : Option (PyAST × List Char) :=
  match fuel with
  | 0 => none
  | fuel + 1 => do
    let (a, cs) ← parseAtom fuel cs
    match skipWs cs with
    | '*' :: '*' :: cs => do
      let (e, cs) ← parseUnary fuel cs
      some (.binOp a .powOp e, cs)
    | cs => some (a, cs)

/-- `atom := INT | '(' expr ')'`. -/
def parseAtom (fuel : Nat) (cs : List Char) : Option (PyAST × List Char) :=
  match fuel with
  | 0 => none
  | fuel + 1 =>
    match skipWs cs with
    | '(' :: cs => do
      let (e, cs) ← parseAddSub fuel cs
      match skipWs cs with
      | ')' :: cs => some (e, cs)
      | _ => none
    | cs => do
      let (n, cs) ← lexInt cs
      some (.constant (.intV n), cs)

end

/-- `ast.parse(code, mode="eval")` on the arithmetic fragment: parse a full
expression and require that only trailing whitespace remains. -/
def pyParse (code : String) : Option PyAST := do
  let (a, rest) ← parseAddSub (8 * (code.length + 2)) code.data
  if (skipWs rest).isEmpty then some a else none

/-- `check_numeric_calc` from `numeric_time_check.py`: parse, evaluate, and
compare `str(result) == str(expected)`; any exception yields `False`
(`expected` is already a `str`, so `str(expected)` is itself). -/
def check_numeric_calc (code expected : String) : Bool :=
  match pyParse code with
  | none => false
  | some a =>
    match _eval_node a with
    | .error _ => false
    | .ok v => pyStr v == expected

/-! ### SHA-256 (`hashlib.sha256(...).hexdigest()` in `hashcheck.py`)

A direct implementation of FIPS 180-4 over `Nat` bytes/words, with 32-bit
words represented as naturals reduced modulo `2 ^ 32`. -/

/-- Reduce to a 32-bit word. -/
def w32 (n : Nat) : Nat := n % 4294967296

/-- 32-bit rotate right. -/
def rotr (k x : Nat) : Nat := w32 ((x >>> k) ||| (x <<< (32 - k)))

/-- 32-bit bitwise complement. -/
def bnot32 (x : Nat) : Nat := 4294967295 - w32 x

/-- The SHA-256 round constants. -/
def shaK : List Nat :=
  [1116352408, 1899447441, 3049323471, 3921009573, 961987163, 1508970993,
   2453635748, 2870763221, 3624381080, 310598401, 607225278, 1426881987,
   1925078388, 2162078206, 2614888103, 3248222580, 3835390401, 4022224774,
   264347078, 604807628, 770255983, 1249150122, 1555081692, 1996064986,
   2554220882, 2821834349, 2952996808, 3210313671, 3336571891, 3584528711,
   113926993, 338241895, 666307205, 773529912, 1294757372, 1396182291,
   1695183700, 1986661051, 2177026350, 2456956037, 2730485921, 2820302411,
   3259730800, 3345764771, 3516065817, 3600352804, 4094571909, 275423344,
   430227734, 506948616, 659060556, 883997877, 958139571, 1322822218,
   1537002063, 1747873779, 1955562222, 2024104815, 2227730452, 2361852424,
   2428436474, 2756734187, 3204031479, 3329325298]

/-- The SHA-256 initial hash value. -/
def shaH0 : List Nat :=
  [1779033703, 3144134277, 1013904242, 2773480762,
   1359893119, 2600822924, 528734635, 1541459225]

/-- Message padding: append `0x80`, zero bytes to 56 mod 64, then the bit
length as 8 big-endian bytes. -/
def shaPad (msg : List Nat) : List Nat :=
  let len := msg.length
  let zeros := (64 - (len + 9) % 64) % 64
  let bitLen := 8 * len
  msg ++ [0x80] ++ List.replicate zeros 0 ++
    [(bitLen >>> 56) % 256, (bitLen >>> 48) % 256, (bitLen >>> 40) % 256,
     (bitLen >>> 32) % 256, (bitLen >>> 24) % 256, (bitLen >>> 16) % 256,
     (bitLen >>> 8) % 256, bitLen % 256]

/-- Split a list into chunks of `k` elements (`k > 0`; the padded message
length is a multiple of 64). -/
def chunksGo (k : Nat) : Nat → List Nat → List (List Nat)
  | _, [] => []
  | 0, _ :: _ => []
  | fuel + 1, x :: xs => (x :: xs).take k :: chunksGo k fuel ((x :: xs).drop k)

/-- Split a list into chunks of `k` elements (`k > 0`; called with `k = 64`
on the padded message, whose length is a multiple of 64).  The fuel is the
list length, which bounds the chunk count for every positive `k`. -/
def chunksOf (k : Nat) (l : List Nat) : List (List Nat) :=
  chunksGo k l.length l

/-- Big-endian 32-bit words from bytes. -/
def bytesToWords : List Nat → List Nat
  | b0 :: b1 :: b2 :: b3 :: rest =>
    (b0 <<< 24 ||| b1 <<< 16 ||| b2 <<< 8 ||| b3) :: bytesToWords rest
  | _ => []

/-- Extend the 16 block words by `t` further message-schedule words. -/
def shaSchedule (w : Array Nat) : Nat → Array Nat
  | 0 => w
  | t + 1 =>
    let i := w.size
    let wm15 := w.getD (i - 15) 0
    let wm2 := w.getD (i - 2) 0
    let wm16 := w.getD (i - 16) 0
    let wm7 := w.getD (i - 7) 0
    let s0 := w32 (rotr 7 wm15 ^^^ rotr 18 wm15 ^^^ (wm15 >>> 3))
    let s1 := w32 (rotr 17 wm2 ^^^ rotr 19 wm2 ^^^ (wm2 >>> 10))
    shaSchedule (w.push (w32 (wm16 + s0 + wm7 + s1))) t

/-- One round of the SHA-256 compression function. -/
def shaRound (state : List Nat) (kw : Nat × Nat) : List Nat :=
  match state with
  | [a, b, c, d, e, f, g, h] =>
    let s1 := w32 (rotr 6 e ^^^ rotr 11 e ^^^ rotr 25 e)
    let ch := w32 ((e &&& f) ^^^ (bnot32 e &&& g))
    let t1 := w32 (h + s1 + ch + kw.1 + kw.2)
    let s0 := w32 (rotr 2 a ^^^ rotr 13 a ^^^ rotr 22 a)
    let mj := w32 ((a &&& b) ^^^ (a &&& c) ^^^ (b &&& c))
    let t2 := w32 (s0 + mj)
    [w32 (t1 + t2), a, b, c, w32 (d + t1), e, f, g]
  | s => s

/-- Process one 64-byte block. -/
def shaBlock (hs : List Nat) (block : List Nat) : List Nat :=
  let w := shaSchedule (List.toArray (bytesToWords block)) 48
  let final := (shaK.zip w.toList).foldl shaRound hs
  (hs.zip final).map (fun p => w32 (p.1 + p.2))

/-- SHA-256 digest (as 8 words) of a byte list. -/
def sha256Words (msg : List Nat) : List Nat :=
  (chunksOf 64 (shaPad msg)).foldl shaBlock shaH0

/-- Lowercase hex of one nibble. -/
def hexDigit (n : Nat) : Char :=
  if n < 10 then Char.ofNat (48 + n) else Char.ofNat (87 + n)

/-- Lowercase 8-hex-digit form of a 32-bit word. -/
def wordToHex (n : Nat) : List Char :=
  [hexDigit ((n >>> 28) % 16), hexDigit ((n >>> 24) % 16),
   hexDigit ((n >>> 20) % 16), hexDigit ((n >>> 16) % 16),
   hexDigit ((n >>> 12) % 16), hexDigit ((n >>> 8) % 16),
   hexDigit ((n >>> 4) % 16), hexDigit (n % 16)]

/-- UTF-8 encoding of one character (`str.encode("utf-8")`). -/
def utf8EncodeChar (c : Char) : List Nat :=
  let n := c.toNat
  if n < 0x80 then [n]
  else if n < 0x800 then
    [0xc0 ||| (n >>> 6), 0x80 ||| (n &&& 0x3f)]
  else if n < 0x10000 then
    [0xe0 ||| (n >>> 12), 0x80 ||| ((n >>> 6) &&& 0x3f), 0x80 ||| (n &&& 0x3f)]
  else
    [0xf0 ||| (n >>> 18), 0x80 ||| ((n >>> 12) &&& 0x3f),
     0x80 ||| ((n >>> 6) &&& 0x3f), 0x80 ||| (n &&& 0x3f)]

/-- `_sha256_hex` from `hashcheck.py`:
`hashlib.sha256(s.encode("utf-8")).hexdigest()`. -/
def _sha256_hex (s : String) : String :=
  String.mk ((sha256Words ((s.data.map utf8EncodeChar).flatten)).map wordToHex).flatten

/-! ### `src/egl/schema.py`

Python exceptions raised by the schema and verifier code are modelled by
`PyError`; a function that can raise returns `Except PyError`.
-/

/-- The Python exceptions the embedded code can raise. -/
inductive PyError where
  | keyError : String → PyError
  | valueError : String → PyError
  | typeError : String → PyError
deriving DecidableEq, Repr

/-- `NODE_TYPES` (a Python set; only membership is used). -/
def NODE_TYPES : List String := ["claim", "evidence", "calc", "entailment"]

/-- `EDGE_TYPES` (a Python set; only membership is used). -/
def EDGE_TYPES : List String := ["supports", "refutes", "derives", "uses-tool", "cites"]

/-- The `Node` dataclass.  All optional fields default to `None`. -/
structure Node where
  id : String
  type : String
  text : Option String := none
  url : Option String := none
  span : Option String := none
  hash : Option String := none
  code : Option String := none
  result : Option String := none
  premise : Option String := none
  hypothesis : Option String := none
  lang : Option String := none
deriving DecidableEq, Repr

/-- The `Edge` dataclass. -/
structure Edge where
  source : String
  target : String
  type : String
deriving DecidableEq, Repr

/-- The `EvidenceGraph` dataclass: ordered node and edge sequences. -/
structure EvidenceGraph where
  nodes : List Node
  edges : List Edge
deriving DecidableEq, Repr

/-- `get_node`: `node_map` is the dict `{n.id: n for n in nodes}`, so for a
duplicated id the *last* node with that id wins; `.get` returns `None` when
the id is absent. -/
def findNodeById : List Node → String → Option Node
  | [], _ => none
  | n :: t, k => if n.id == k then some n else findNodeById t k

/-- `get_node` body (see doc above): last-wins dict lookup. -/
def EvidenceGraph.get_node (g : EvidenceGraph) (node_id : String) : Option Node :=
  findNodeById g.nodes.reverse node_id

/-- `outgoing`: edges whose source is the given id, in edge order. -/
def EvidenceGraph.outgoing (g : EvidenceGraph) (node_id : String) : List Edge :=
  g.edges.filter (fun e => e.source == node_id)

/-- `incoming`: edges whose target is the given id, in edge order. -/
def EvidenceGraph.incoming (g : EvidenceGraph) (node_id : String) : List Edge :=
  g.edges.filter (fun e => e.target == node_id)

/-- `claims`: all claim nodes in node order. -/
def EvidenceGraph.claims (g : EvidenceGraph) : List Node :=
  g.nodes.filter (fun n => n.type == "claim")

/-- `evidence_nodes`: all evidence nodes in node order. -/
def EvidenceGraph.evidence_nodes (g : EvidenceGraph) : List Node :=
  g.nodes.filter (fun n => n.type == "evidence")

/-- `is_final_claim`: no incoming `derives` edge. -/
def EvidenceGraph.is_final_claim (g : EvidenceGraph) (node : Node) : Bool :=
  (g.incoming node.id).all (fun e => e.type ≠ "derives")

/-- `final_claims`: claims that are not derived. -/
def EvidenceGraph.final_claims (g : EvidenceGraph) : List Node :=
  g.claims.filter (fun c => g.is_final_claim c)

/-! The reachability traversal of `reachable_from_evidence`.  The Python
`reachable` dict is an association list whose keys are the distinct node
ids in first-occurrence order; `reachable[t] = True` updates the entry in
place and `reachable[t]` raises `KeyError` when `t` is not a key (which
the source code does on a dangling edge target).  The Python work list
`stack` (`list.pop` from the end, `append` to the end) is represented
top-first, so a pop is a head match and pushes are prepended. -/

/-- Seed node types of the traversal. -/
def seedTypes : List String := ["evidence", "calc", "entailment"]

/-- Edge types the traversal follows. -/
def followTypes : List String := ["supports", "derives", "cites", "uses-tool"]

/-- Lookup in the reachability dict (keys are distinct, so first match is
dict lookup). -/
def rlookupB : List (String × Bool) → String → Option Bool
  | [], _ => none
  | kv :: t, k => if kv.1 == k then some kv.2 else rlookupB t k

/-- `d[k] = True`: set the first entry with key `k` (keys are distinct by
construction, matching the Python dict). -/
def rupdateTrue : List (String × Bool) → String → List (String × Bool)
  | [], _ => []
  | kv :: t, k => if kv.1 == k then (kv.1, true) :: t else kv :: rupdateTrue t k

/-- The dict `{n.id: False for n in nodes}`: one entry per distinct id. -/
def initReach (g : EvidenceGraph) : List (String × Bool) :=
  ((g.nodes.map Node.id).dedup).map (fun i => (i, false))

/-- `for nid in stack: reachable[nid] = True`. -/
def markSeeds (d : List (String × Bool)) (ids : List String) : List (String × Bool) :=
  ids.foldl rupdateTrue d

/-- The inner loop over `outgoing(current)`: follow each edge whose source
is `current` and whose type is in `followTypes`; an absent target key is a
`KeyError`; an unreached target is marked reached and pushed (pushes are
returned in encounter order). -/
def processOut : List Edge → String → List (String × Bool) →
    Except PyError (List (String × Bool) × List String)
  | [], _, d => .ok (d, [])
  | e :: rest, current, d =>
    if e.source == current && followTypes.contains e.type then
      match rlookupB d e.target with
      | none => .error (.keyError e.target)
      | some true => processOut rest current d
      | some false => do
        let (d2, pushes) ← processOut rest current (rupdateTrue d e.target)
        .ok (d2, e.target :: pushes)
    else processOut rest current d

/-- The `while stack:` loop.  The fuel strictly exceeds the number of pops
(each pushed id flips a `False` entry of the dict to `True`, so pops are
bounded by the initial stack length plus the number of `False` entries);
`dfsReach_fuel_ok` below shows the fuel case is never reached from
`reachable_from_evidence`. -/
def dfsReach : Nat → List Edge → List (String × Bool) → List String →
    Except PyError (List (String × Bool))
  | 0, _, _, _ => .error (.valueError "out of fuel")
  | _ + 1, _, d, [] => .ok d
  | fuel + 1, edges, d, current :: rest => do
    let (d2, pushes) ← processOut edges current d
    dfsReach fuel edges d2 (pushes.reverse ++ rest)

/-- The initial work list: ids of evidence/calc/entailment nodes, in node
order. -/
def EvidenceGraph.seeds (g : EvidenceGraph) : List String :=
  (g.nodes.filter (fun n => seedTypes.contains n.type)).map Node.id

/-- `reachable_from_evidence`: seed with evidence/calc/entailment nodes,
then traverse. -/
def EvidenceGraph.reachable_from_evidence (g : EvidenceGraph) :
    Except PyError (List (String × Bool)) :=
  dfsReach (g.nodes.length + g.seeds.length + 1) g.edges
    (markSeeds (initReach g) g.seeds) g.seeds.reverse

/-- `validate_connectivity`: every final claim id maps to `True`
(`reachable.get(claim.id, False)`); a `KeyError` of the traversal
propagates. -/
def EvidenceGraph.validate_connectivity (g : EvidenceGraph) : Except PyError Bool :=
  match g.reachable_from_evidence with
  | .error err => .error err
  | .ok reachable =>
    .ok (g.final_claims.all (fun c => (rlookupB reachable c.id).getD false))

/-- The duplicate-identifier error of `validate_graph`: the id set
(`dedup` models the Python `set`, whose only uses are cardinality and
membership) is smaller than the node list. -/
def dupIdErrors (g : EvidenceGraph) : List String :=
  if ((g.nodes.map Node.id).dedup).length ≠ g.nodes.length
  then ["Duplicate node identifiers found"] else []

/-- The dangling-edge errors of `validate_graph`, in edge order. -/
def danglingErrors (g : EvidenceGraph) : List String :=
  g.edges.flatMap (fun e =>
    (if ((g.nodes.map Node.id).dedup).contains e.source then []
     else ["Edge source " ++ e.source ++ " does not exist"]) ++
    (if ((g.nodes.map Node.id).dedup).contains e.target then []
     else ["Edge target " ++ e.target ++ " does not exist"]))

/-- `validate_graph`: duplicate-id check, dangling-edge checks in edge
order, then the connectivity check (whose traversal may raise `KeyError`
on a dangling target of a followable edge out of a reached node — the
source indexes the dict directly there, and the exception escapes the
function, losing the collected error list). -/
def validate_graph (g : EvidenceGraph) : Except PyError (List String) :=
  match g.validate_connectivity with
  | .error err => .error err
  | .ok conn =>
    .ok (dupIdErrors g ++ danglingErrors g ++
      (if conn then [] else ["Final claims are not reachable from evidence or calc nodes"]))

/-! ### `src/verifier/hashcheck.py` -/

/-- The loop body of `check_source_binding` for one node: the problem
entries the node contributes, in source order of the checks. -/
def nodeBindingProblems (node : Node) : List String :=
  if node.type ≠ "evidence" then []
  else if node.span.getD "" = "" then ["evidence " ++ node.id ++ " missing span"]
  else if node.hash.getD "" = "" then ["evidence " ++ node.id ++ " missing hash"]
  else if _sha256_hex (node.span.getD "") ≠ node.hash.getD "" then
    ["hash mismatch for " ++ node.id]
  else []

/-- `check_source_binding`: collect problems over all nodes; passed iff the
problem list is empty. -/
def check_source_binding (g : EvidenceGraph) : Bool × List String :=
  let problems := g.nodes.flatMap nodeBindingProblems
  (problems.isEmpty, problems)

/-! ### `src/verifier/minimality.py` -/

/-- `_graph_without_edge`: the Python code removes by object identity
(`e is not edge_to_remove`), which for the loop over `graph.edges` means
removing exactly the occurrence at the current position; positions model
object identity. -/
def _graph_without_edge (g : EvidenceGraph) (i : Nat) : EvidenceGraph :=
  ⟨g.nodes, g.edges.eraseIdx i⟩

/-- `_supports_valid`: every supports edge with an evidence source and a
claim target still classifies as supported; a supports edge with a missing
endpoint fails the check (the `if not src or not tgt: return False`
branch). -/
def _supports_valid (g : EvidenceGraph) : Bool :=
  g.edges.all (fun e =>
    if e.type ≠ "supports" then true
    else
      match g.get_node e.source, g.get_node e.target with
      | some src, some tgt =>
        if src.type ≠ "evidence" || tgt.type ≠ "claim" then true
        else get_support_level (src.span.getD "") (tgt.text.getD "") == "supported"
      | _, _ => false)

/-- The per-edge loop of `check_minimality` over the position-annotated
edge list: an edge is recorded (formatted `source->target`) when the graph
without it passes both the connectivity check and `_supports_valid`; a
`KeyError` escaping the connectivity check propagates. -/
def checkMinFold (g : EvidenceGraph) : List (Nat × Edge) → Except PyError (List String)
  | [] => .ok []
  | (i, e) :: rest => do
    let conn ← (_graph_without_edge g i).validate_connectivity
    if conn = false then checkMinFold g rest
    else if _supports_valid (_graph_without_edge g i) = false then checkMinFold g rest
    else do
      let r ← checkMinFold g rest
      .ok ((e.source ++ "->" ++ e.target) :: r)

/-- `check_minimality`: `(False, [])` for an edgeless graph, otherwise the
removable list over every edge and `is_minimal = (removable == [])`.  (The
source also computes `graph.final_claims()` before the loop and never uses
it.) -/
def check_minimality (g : EvidenceGraph) : Except PyError (Bool × List String) :=
  if g.edges.isEmpty then .ok (false, [])
  else do
    let removable ← checkMinFold g g.edges.enum
    .ok (removable.isEmpty, removable)

/-! ### `src/egl/compiler.py`

A raw record (a Python dict of string keys; all field values that flow
into `Node`/`Edge` fields in this repository are strings) is modelled as
an association list with first-match lookup. -/

/-- A raw node or edge record. -/
abbrev RawRecord := List (String × String)

/-- Dict lookup on a raw record. -/
def rlookup : RawRecord → String → Option String
  | [], _ => none
  | kv :: t, k => if kv.1 == k then some kv.2 else rlookup t k

/-- The raw compile input: `raw.get("nodes", [])` and
`raw.get("edges", [])`. -/
structure RawGraph where
  nodes : List RawRecord := []
  edges : List RawRecord := []

/-- Building `Node(**node_kwargs)` after filtering to the known keys:
`id` and `type` are required positionals (`TypeError` if absent), all
other known keys populate the optional fields, unknown keys are dropped
(they are simply never looked up), and `Node.__post_init__` raises
`ValueError` on a type tag outside `NODE_TYPES`. -/
def buildNode (nd : RawRecord) : Except PyError Node :=
  match rlookup nd "id", rlookup nd "type" with
  | some i, some t =>
    if NODE_TYPES.contains t then
      .ok { id := i, type := t, text := rlookup nd "text", url := rlookup nd "url",
            span := rlookup nd "span", hash := rlookup nd "hash",
            code := rlookup nd "code", result := rlookup nd "result",
            premise := rlookup nd "premise", hypothesis := rlookup nd "hypothesis",
            lang := rlookup nd "lang" }
    else .error (.valueError ("Unknown node type " ++ t))
  | _, _ => .error (.typeError "Node missing required argument")

/-- Building `Edge(**edge_kwargs)` after filtering to
`{source, target, type}`; all three are required, and
`Edge.__post_init__` raises `ValueError` on a type outside
`EDGE_TYPES`. -/
def buildEdge (ed : RawRecord) : Except PyError Edge :=
  match rlookup ed "source", rlookup ed "target", rlookup ed "type" with
  | some s, some t, some ty =>
    if EDGE_TYPES.contains ty then .ok ⟨s, t, ty⟩
    else .error (.valueError ("Unknown edge type " ++ ty))
  | _, _, _ => .error (.typeError "Edge missing required argument")

/-- Two strings with the same character data are equal. -/
theorem stringDataInj (a b : String) (h : a.data = b.data) : a = b := by
  cases a
  cases b
  exact congrArg String.mk h

/-- The node sort key: `nodes.sort(key=lambda n: n.id)` compares ids;
Python compares strings lexicographically by code points, which is the
order on their character lists.  (Comparisons go through `.data` because
the character-list order is the computable one.) -/
def nodeLe (a b : Node) : Prop := a.id.data ≤ b.id.data

instance : DecidableRel nodeLe := fun a b => by
  unfold nodeLe; infer_instance

instance : IsTotal Node nodeLe := ⟨fun a b => le_total a.id.data b.id.data⟩

instance : IsTrans Node nodeLe := ⟨fun _ _ _ h1 h2 => le_trans h1 h2⟩

/-- The edge sort key: the lexicographic order on
`(source, target, type)` used by `edges.sort(...)`, with Python string
comparison as for `nodeLe`. -/
def edgeLe (a b : Edge) : Prop :=
  a.source.data < b.source.data ∨ (a.source = b.source ∧
    (a.target.data < b.target.data ∨ (a.target = b.target ∧ a.type.data ≤ b.type.data)))

instance : DecidableRel edgeLe := fun a b => by
  unfold edgeLe; infer_instance

instance : IsTotal Edge edgeLe := by
  constructor
  intro a b
  unfold edgeLe
  rcases lt_trichotomy a.source.data b.source.data with h | h | h
  · exact Or.inl (Or.inl h)
  · have hs := stringDataInj _ _ h
    rcases lt_trichotomy a.target.data b.target.data with h2 | h2 | h2
    · exact Or.inl (Or.inr ⟨hs, Or.inl h2⟩)
    · have ht := stringDataInj _ _ h2
      rcases le_total a.type.data b.type.data with h3 | h3
      · exact Or.inl (Or.inr ⟨hs, Or.inr ⟨ht, h3⟩⟩)
      · exact Or.inr (Or.inr ⟨hs.symm, Or.inr ⟨ht.symm, h3⟩⟩)
    · exact Or.inr (Or.inr ⟨hs.symm, Or.inl h2⟩)
  · exact Or.inr (Or.inl h)

instance : IsTrans Edge edgeLe := by
  constructor
  intro a b c hab hbc
  unfold edgeLe at *
  rcases hab with h1 | ⟨e1, h1⟩
  · rcases hbc with h2 | ⟨e2, _⟩
    · exact Or.inl (h1.trans h2)
    · exact Or.inl (e2 ▸ h1)
  · rcases hbc with h2 | ⟨e2, h2⟩
    · exact Or.inl (e1 ▸ h2)
    · refine Or.inr ⟨e1.trans e2, ?_⟩
      rcases h1 with h1 | ⟨f1, h1⟩
      · rcases h2 with h2 | ⟨f2, _⟩
        · exact Or.inl (h1.trans h2)
        · exact Or.inl (f2 ▸ h1)
      · rcases h2 with h2 | ⟨f2, h2⟩
        · exact Or.inl (f1 ▸ h2)
        · exact Or.inr ⟨f1.trans f2, h1.trans h2⟩

instance : IsAntisymm Edge edgeLe := by
  constructor
  intro a b hab hba
  unfold edgeLe at *
  obtain ⟨s, t, ty⟩ := a
  obtain ⟨s2, t2, ty2⟩ := b
  simp only [Edge.mk.injEq]
  rcases hab with h1 | ⟨e1, h1⟩ <;> rcases hba with h2 | ⟨e2, h2⟩
  · exact absurd (h1.trans h2) (lt_irrefl _)
  · exact absurd (e2 ▸ h1) (lt_irrefl _)
  · exact absurd (e1 ▸ h2) (lt_irrefl _)
  · refine ⟨e1, ?_⟩
    rcases h1 with h1 | ⟨f1, h1⟩ <;> rcases h2 with h2 | ⟨f2, h2⟩
    · exact absurd (h1.trans h2) (lt_irrefl _)
    · exact absurd (f2 ▸ h1) (lt_irrefl _)
    · exact absurd (f1 ▸ h2) (lt_irrefl _)
    · exact ⟨f1, stringDataInj _ _ (le_antisymm h1 h2)⟩

/-- The validation tail of `compile_graph`: run `validate_graph` on the
built graph and raise `ValueError` with the joined messages when it
reports errors. -/
def compileValidate (graph : EvidenceGraph) : Except PyError EvidenceGraph := do
  let errors ← validate_graph graph
  if errors.isEmpty then .ok graph
  else .error (.valueError ("Invalid evidence graph: " ++ String.intercalate "; " errors))

/-- `compile_graph`: build typed nodes and edges (first failure raises),
sort both for determinism (Python `list.sort` is stable; insertion sort
is the matching stable sort), then validate. -/
def compile_graph (raw : RawGraph) : Except PyError EvidenceGraph := do
  let nodes ← raw.nodes.mapM buildNode
  let edges ← raw.edges.mapM buildEdge
  compileValidate ⟨List.insertionSort nodeLe nodes, List.insertionSort edgeLe edges⟩

/-! ### `src/model/runner.py` (`PaladinRunner._verify`) -/

/-- The `details` dictionary of `_verify`: per-check passed flag plus the
check's list (problems, levels, removable edges, failing calc node ids). -/
structure VDetails where
  hash : Bool × List String
  entailment : Bool × List String
  minimality : Bool × List String
  numeric : Bool × List String
deriving DecidableEq, Repr

/-- The entailment loop of `_verify`: the support level of every supports
edge joining an evidence node to a claim node, in edge order. -/
def entailLevels (g : EvidenceGraph) : List String :=
  g.edges.flatMap (fun e =>
    if e.type ≠ "supports" then []
    else
      match g.get_node e.source, g.get_node e.target with
      | some src, some tgt =>
        if src.type = "evidence" && tgt.type = "claim" then
          [get_support_level (src.span.getD "") (tgt.text.getD "")]
        else []
      | _, _ => [])

/-- The numeric loop of `_verify`: ids of calc nodes carrying both a code
and a result whose recomputation fails (`check_numeric_calc` catches every
exception internally, so the `try` of the source never fires). -/
def numericProblems (g : EvidenceGraph) : List String :=
  g.nodes.flatMap (fun n =>
    if n.type = "calc" && n.code.isSome && n.result.isSome then
      if check_numeric_calc (n.code.getD "") (n.result.getD "") then [] else [n.id]
    else [])

/-- `PaladinRunner._verify`: run the hash check, the per-edge entailment
check, the minimality check (whose `KeyError` on a structurally broken
graph would propagate) and the numeric check, and AND the four verdicts. -/
def _verify (g : EvidenceGraph) : Except PyError (Bool × VDetails) := do
  let minRes ← check_minimality g
  .ok ((check_source_binding g).1 &&
        (entailLevels g).all (fun l => l == "supported") &&
        minRes.1 && (numericProblems g).isEmpty,
    ⟨check_source_binding g,
     ((entailLevels g).all (fun l => l == "supported"), entailLevels g),
     minRes,
     ((numericProblems g).isEmpty, numericProblems g)⟩)

/-! ### Specification-side predicates

These restate conditions in the words of the spec, for comparison with the
source-derived functions above. -/

/-- Spec side of minimality condition (ii): every supports edge joining an
(existing) evidence node to an (existing) claim node still classifies as
supported.  Unlike `_supports_valid`, a supports edge with a missing
endpoint is not constrained; on graphs without dangling edges the two
coincide (`supports_valid_eq_spec` below). -/
def supportsStillOkB (g : EvidenceGraph) : Bool :=
  g.edges.all (fun e =>
    if e.type ≠ "supports" then true
    else
      match g.get_node e.source, g.get_node e.target with
      | some src, some tgt =>
        if src.type ≠ "evidence" || tgt.type ≠ "claim" then true
        else get_support_level (src.span.getD "") (tgt.text.getD "") == "supported"
      | _, _ => true)

/-- Spec side of the removability condition for the edge at position `i`:
the graph with that edge omitted (a) passes the connectivity check and
(b) keeps every evidence-to-claim supports edge supported. -/
def removCond (g : EvidenceGraph) (i : Nat) : Bool :=
  (match (_graph_without_edge g i).validate_connectivity with
   | .ok b => b
   | .error _ => false) && supportsStillOkB (_graph_without_edge g i)

/-- Spec side of the removable list: the edges (in edge order) satisfying
`removCond`, formatted `source->target`. -/
def removableSpec (g : EvidenceGraph) : List String :=
  (g.edges.enum.filter (fun ie => removCond g ie.1)).map
    (fun ie => ie.2.source ++ "->" ++ ie.2.target)

/-! ### Lemmas on the reachability dict -/

/-- Number of unreached entries of the dict. -/
def countFalse (d : List (String × Bool)) : Nat :=
  (d.filter (fun kv => kv.2 = false)).length

theorem rupdateTrue_keys (d : List (String × Bool)) (k : String) :
    (rupdateTrue d k).map Prod.fst = d.map Prod.fst := by
  induction d with
  | nil => rfl
  | cons kv t ih =>
    unfold rupdateTrue
    by_cases h : kv.1 == k
    · simp [h]
    · simp [h, ih]

theorem countFalse_rupdateTrue (d : List (String × Bool)) (k : String)
    (h : rlookupB d k = some false) :
    countFalse (rupdateTrue d k) + 1 = countFalse d := by
  induction d with
  | nil => simp [rlookupB] at h
  | cons kv t ih =>
    unfold rlookupB at h
    unfold rupdateTrue
    by_cases hk : kv.1 == k
    · simp only [if_pos hk] at h
      have hv : kv.2 = false := by
        simpa using h
      simp [hk, countFalse, hv]
    · simp only [if_neg hk] at h
      have ih2 := ih h
      by_cases hv : kv.2 = false
      · simp only [if_neg hk]
        simp [countFalse, hv] at ih2 ⊢
        omega
      · simp only [if_neg hk]
        simp [countFalse, hv] at ih2 ⊢
        omega

theorem rlookupB_isSome_iff (d : List (String × Bool)) (k : String) :
    (rlookupB d k).isSome ↔ k ∈ d.map Prod.fst := by
  induction d with
  | nil => simp [rlookupB]
  | cons kv t ih =>
    unfold rlookupB
    by_cases hk : kv.1 == k
    · have : kv.1 = k := by simpa using hk
      simp [hk, this]
    · have hne : ¬ kv.1 = k := by simpa using hk
      simp only [if_neg hk, List.map_cons, List.mem_cons]
      rw [ih]
      constructor
      · exact Or.inr
      · rintro (h | h)
        · exact absurd h.symm hne
        · exact h

theorem countFalse_le_length (d : List (String × Bool)) :
    countFalse d ≤ d.length := by
  simpa [countFalse] using List.length_filter_le (fun kv => decide (kv.2 = false)) d

/-! ### Lemmas on the traversal -/

theorem processOut_ok (edges : List Edge) (cur : String) (d : List (String × Bool))
    (hkeys : ∀ e ∈ edges, followTypes.contains e.type = true →
      e.target ∈ d.map Prod.fst) :
    ∃ d2 pushes, processOut edges cur d = .ok (d2, pushes) ∧
      d2.map Prod.fst = d.map Prod.fst ∧
      countFalse d2 + pushes.length = countFalse d := by
  induction edges generalizing d with
  | nil => exact ⟨d, [], rfl, rfl, rfl⟩
  | cons e rest ih =>
    unfold processOut
    by_cases hc : e.source == cur && followTypes.contains e.type
    · obtain ⟨hsrc, hfollow⟩ : (e.source == cur) = true ∧ followTypes.contains e.type = true := by
        simpa using hc
      have htgt : e.target ∈ d.map Prod.fst := hkeys e (List.mem_cons_self e rest) hfollow
      have hsome : (rlookupB d e.target).isSome := (rlookupB_isSome_iff d e.target).mpr htgt
      simp only [hc, if_true]
      match hv : rlookupB d e.target with
      | none => simp [hv] at hsome
      | some true =>
        exact ih d (fun e2 h2 hf => hkeys e2 (List.mem_cons_of_mem e h2) hf)
      | some false =>
        obtain ⟨d2, pushes, hrun, hkeys2, hcount⟩ :=
          ih (rupdateTrue d e.target) (fun e2 h2 hf => by
            rw [rupdateTrue_keys]
            exact hkeys e2 (List.mem_cons_of_mem e h2) hf)
        refine ⟨d2, e.target :: pushes, ?_, ?_, ?_⟩
        · rw [hrun]
          rfl
        · rw [hkeys2, rupdateTrue_keys]
        · have := countFalse_rupdateTrue d e.target hv
          simp only [List.length_cons]
          omega
    · simp only [hc, if_false]
      exact ih d (fun e2 h2 hf => hkeys e2 (List.mem_cons_of_mem e h2) hf)

theorem dfsReach_ok (fuel : Nat) (edges : List Edge) (d : List (String × Bool))
    (stack : List String)
    (hfuel : stack.length + countFalse d < fuel)
    (hkeys : ∀ e ∈ edges, followTypes.contains e.type = true →
      e.target ∈ d.map Prod.fst) :
    ∃ r, dfsReach fuel edges d stack = .ok r := by
  induction fuel generalizing d stack with
  | zero => omega
  | succ fuel ih =>
    match stack with
    | [] => exact ⟨d, rfl⟩
    | current :: rest =>
      obtain ⟨d2, pushes, hrun, hkeys2, hcount⟩ := processOut_ok edges current d hkeys
      have hrec := ih d2 (pushes.reverse ++ rest)
        (by
          simp only [List.length_append, List.length_reverse, List.length_cons] at hfuel ⊢
          omega)
        (fun e h2 hf => by rw [hkeys2]; exact hkeys e h2 hf)
      obtain ⟨r, hr⟩ := hrec
      refine ⟨r, ?_⟩
      unfold dfsReach
      rw [hrun]
      exact hr

/-- The inner loop ignores an edge whose type the traversal does not
follow. -/
theorem processOut_erase (l1 l2 : List Edge) (e : Edge)
    (he : followTypes.contains e.type = false) (cur : String)
    (d : List (String × Bool)) :
    processOut (l1 ++ l2) cur d = processOut (l1 ++ e :: l2) cur d := by
  induction l1 generalizing d with
  | nil =>
    simp only [List.nil_append]
    conv_rhs => unfold processOut
    have hcond : (e.source == cur && followTypes.contains e.type) = false := by
      rw [he, Bool.and_false]
    rw [hcond]
    simp
  | cons f t ih =>
    simp only [List.cons_append]
    unfold processOut
    by_cases hc : f.source == cur && followTypes.contains f.type
    · simp only [hc, if_true]
      match rlookupB d f.target with
      | none => rfl
      | some true => exact ih d
      | some false => rw [ih (rupdateTrue d f.target)]
    · simp only [hc, if_false]
      exact ih d

/-- The traversal ignores an edge whose type it does not follow. -/
theorem dfsReach_erase (fuel : Nat) (l1 l2 : List Edge) (e : Edge)
    (he : followTypes.contains e.type = false) (d : List (String × Bool))
    (stack : List String) :
    dfsReach fuel (l1 ++ l2) d stack = dfsReach fuel (l1 ++ e :: l2) d stack := by
  induction fuel generalizing d stack with
  | zero => rfl
  | succ fuel ih =>
    match stack with
    | [] => rfl
    | current :: rest =>
      unfold dfsReach
      rw [← processOut_erase l1 l2 e he current d]
      match processOut (l1 ++ l2) current d with
      | .error err => rfl
      | .ok (d2, pushes) => exact ih d2 (pushes.reverse ++ rest)

/-! ### Structural facts extracted from a passing validation -/

theorem validate_graph_ok_parts (g : EvidenceGraph) (l : List String)
    (h : validate_graph g = .ok l) :
    ∃ conn, g.validate_connectivity = .ok conn ∧
      l = dupIdErrors g ++ danglingErrors g ++
        (if conn then []
         else ["Final claims are not reachable from evidence or calc nodes"]) := by
  unfold validate_graph at h
  match hc : g.validate_connectivity with
  | .error err =>
    rw [hc] at h
    exact absurd h (by simp)
  | .ok conn =>
    rw [hc] at h
    exact ⟨conn, rfl, (Except.ok.inj h).symm⟩

/-- A graph passing validation has distinct node ids, no dangling edge
endpoints, and a passing connectivity check. -/
theorem validate_graph_ok_facts (g : EvidenceGraph)
    (h : validate_graph g = .ok []) :
    ((g.nodes.map Node.id).dedup.length = g.nodes.length) ∧
    (∀ e ∈ g.edges, e.source ∈ g.nodes.map Node.id ∧ e.target ∈ g.nodes.map Node.id) ∧
    g.validate_connectivity = .ok true := by
  obtain ⟨conn, hc, hl⟩ := validate_graph_ok_parts g [] h
  have happ := hl.symm
  rw [List.append_assoc] at happ
  have h1 := List.append_eq_nil.mp happ
  have h23 := List.append_eq_nil.mp h1.2
  refine ⟨?_, ?_, ?_⟩
  · by_contra hne
    simp [dupIdErrors, hne] at h1
  · intro e he
    have h2 := h23.1
    unfold danglingErrors at h2
    rw [List.flatMap_eq_nil_iff] at h2
    have hmem := h2 e he
    rw [List.append_eq_nil] at hmem
    obtain ⟨hm1, hm2⟩ := hmem
    constructor
    · by_cases hs : ((g.nodes.map Node.id).dedup).contains e.source
      · have : e.source ∈ (g.nodes.map Node.id).dedup := by
          simpa using hs
        exact List.mem_dedup.mp this
      · rw [if_neg hs] at hm1
        exact absurd hm1 (by simp)
    · by_cases hs : ((g.nodes.map Node.id).dedup).contains e.target
      · have : e.target ∈ (g.nodes.map Node.id).dedup := by
          simpa using hs
        exact List.mem_dedup.mp this
      · rw [if_neg hs] at hm2
        exact absurd hm2 (by simp)
  · have h3 := h23.2
    rcases hb : conn with _ | _
    · rw [hb] at h3; simp at h3
    · rw [hb] at hc; exact hc

/-- `get_node` succeeds exactly on present ids. -/
theorem get_node_isSome_iff (g : EvidenceGraph) (k : String) :
    (g.get_node k).isSome ↔ k ∈ g.nodes.map Node.id := by
  have aux : ∀ l : List Node, (findNodeById l k).isSome ↔ k ∈ l.map Node.id := by
    intro l
    induction l with
    | nil => simp [findNodeById]
    | cons n t ih =>
      unfold findNodeById
      by_cases hn : n.id == k
      · have : n.id = k := by simpa using hn
        simp [hn, this]
      · have hne : ¬ n.id = k := by simpa using hn
        simp only [if_neg hn, List.map_cons, List.mem_cons]
        rw [ih]
        constructor
        · exact Or.inr
        · rintro (h | h)
          · exact absurd h.symm hne
          · exact h
  unfold EvidenceGraph.get_node
  rw [aux g.nodes.reverse, List.map_reverse]
  simp

/-- `List.all` only depends on the predicate's values on the list. -/
theorem list_all_congr {α : Type} (l : List α) (p q : α → Bool)
    (h : ∀ x ∈ l, p x = q x) : l.all p = l.all q := by
  induction l with
  | nil => rfl
  | cons a t ih =>
    simp only [List.all_cons]
    rw [h a (List.mem_cons_self a t), ih (fun x hx => h x (List.mem_cons_of_mem a hx))]

/-- On a graph whose supports edges all have existing endpoints,
`_supports_valid` agrees with the spec-side condition. -/
theorem supports_valid_eq_spec (g : EvidenceGraph)
    (hend : ∀ e ∈ g.edges, e.type = "supports" →
      (g.get_node e.source).isSome ∧ (g.get_node e.target).isSome) :
    _supports_valid g = supportsStillOkB g := by
  unfold _supports_valid supportsStillOkB
  refine list_all_congr g.edges _ _ (fun e he => ?_)
  by_cases ht : e.type = "supports"
  · obtain ⟨hs, htg⟩ := hend e he ht
    match hv1 : g.get_node e.source, hv2 : g.get_node e.target with
    | some src, some tgt => simp
    | none, _ => rw [hv1] at hs; simp at hs
    | some _, none => rw [hv2] at htg; simp at htg
  · simp [ht]

/-- Removing an edge never introduces a dangling endpoint. -/
theorem erase_endpoints (g : EvidenceGraph) (i : Nat) :
    ∀ e ∈ (_graph_without_edge g i).edges, e ∈ g.edges := by
  intro e he
  exact (List.eraseIdx_sublist g.edges i).subset he

/-- `bind` over a success, as an equation for rewriting. -/
theorem except_bind_ok {α β ε : Type} (a : α) (f : α → Except ε β) :
    (Except.ok (ε := ε) a >>= f) = f a := rfl

theorem markSeeds_keys (ids : List String) (d : List (String × Bool)) :
    (markSeeds d ids).map Prod.fst = d.map Prod.fst := by
  induction ids generalizing d with
  | nil => rfl
  | cons i t ih =>
    unfold markSeeds at ih ⊢
    rw [List.foldl_cons, ih, rupdateTrue_keys]

/-- On a graph with no dangling edge targets the connectivity check cannot
raise. -/
theorem validate_connectivity_ok (g : EvidenceGraph)
    (htargets : ∀ e ∈ g.edges, e.target ∈ g.nodes.map Node.id) :
    ∃ b, g.validate_connectivity = .ok b := by
  have hkeys : ∀ e ∈ g.edges, followTypes.contains e.type = true →
      e.target ∈ (markSeeds (initReach g) g.seeds).map Prod.fst := by
    intro e he _
    rw [markSeeds_keys]
    unfold initReach
    rw [List.map_map]
    have : e.target ∈ (g.nodes.map Node.id).dedup := List.mem_dedup.mpr (htargets e he)
    simpa using this
  have hlen : (markSeeds (initReach g) g.seeds).length = (initReach g).length := by
    have h := markSeeds_keys g.seeds (initReach g)
    calc (markSeeds (initReach g) g.seeds).length
        = ((markSeeds (initReach g) g.seeds).map Prod.fst).length := (List.length_map _ _).symm
      _ = ((initReach g).map Prod.fst).length := by rw [h]
      _ = (initReach g).length := List.length_map _ _
  have hinit : (initReach g).length ≤ g.nodes.length := by
    unfold initReach
    rw [List.length_map]
    calc (g.nodes.map Node.id).dedup.length
        ≤ (g.nodes.map Node.id).length := (List.dedup_sublist _).length_le
      _ = g.nodes.length := List.length_map _ _
  have hcount : countFalse (markSeeds (initReach g) g.seeds) ≤ g.nodes.length := by
    have h1 := countFalse_le_length (markSeeds (initReach g) g.seeds)
    omega
  obtain ⟨r, hr⟩ := dfsReach_ok (g.nodes.length + g.seeds.length + 1) g.edges
    (markSeeds (initReach g) g.seeds) g.seeds.reverse
    (by rw [List.length_reverse]; omega) hkeys
  have hreach : g.reachable_from_evidence = .ok r := hr
  unfold EvidenceGraph.validate_connectivity
  rw [hreach]
  exact ⟨_, rfl⟩

/-- The reachability run ignores the removal of an edge whose type the
traversal does not follow. -/
theorem reachable_erase (g : EvidenceGraph) (i : Nat) (e : Edge)
    (hget : g.edges.get? i = some e)
    (hf : followTypes.contains e.type = false) :
    (_graph_without_edge g i).reachable_from_evidence = g.reachable_from_evidence := by
  have hlt : i < g.edges.length := List.get?_eq_some.mp hget |>.1
  have horig : g.edges = g.edges.take i ++ e :: g.edges.drop (i + 1) := by
    have h1 := List.take_append_drop i g.edges
    have h2 : g.edges.drop i = e :: g.edges.drop (i + 1) := by
      rw [List.drop_eq_getElem_cons hlt]
      congr 1
      have := List.get?_eq_some.mp hget
      obtain ⟨_, hv⟩ := this
      simpa using hv
    conv_lhs => rw [← h1]
    rw [h2]
  unfold EvidenceGraph.reachable_from_evidence
  have hn : (_graph_without_edge g i).nodes = g.nodes := rfl
  have hs : (_graph_without_edge g i).seeds = g.seeds := rfl
  have hedges : (_graph_without_edge g i).edges = g.edges.take i ++ g.edges.drop (i + 1) := by
    unfold _graph_without_edge
    exact List.eraseIdx_eq_take_drop_succ g.edges i
  rw [hn, hs, hedges]
  conv_rhs => rw [horig]
  exact dfsReach_erase _ _ _ e hf _ _

/-- Removing a non-`derives` edge leaves the final-claim list unchanged. -/
theorem final_claims_erase (g : EvidenceGraph) (i : Nat) (e : Edge)
    (hget : g.edges.get? i = some e) (hd : (e.type ≠ "derives") = true) :
    (_graph_without_edge g i).final_claims = g.final_claims := by
  have hlt : i < g.edges.length := List.get?_eq_some.mp hget |>.1
  have horig : g.edges = g.edges.take i ++ e :: g.edges.drop (i + 1) := by
    have h1 := List.take_append_drop i g.edges
    have h2 : g.edges.drop i = e :: g.edges.drop (i + 1) := by
      rw [List.drop_eq_getElem_cons hlt]
      congr 1
      obtain ⟨_, hv⟩ := List.get?_eq_some.mp hget
      simpa using hv
    conv_lhs => rw [← h1]
    rw [h2]
  have hedges : (_graph_without_edge g i).edges = g.edges.take i ++ g.edges.drop (i + 1) := by
    unfold _graph_without_edge
    exact List.eraseIdx_eq_take_drop_succ g.edges i
  unfold EvidenceGraph.final_claims EvidenceGraph.claims EvidenceGraph.is_final_claim
    EvidenceGraph.incoming
  have hc : (_graph_without_edge g i).nodes = g.nodes := rfl
  rw [hc, hedges]
  apply List.filter_congr
  intro c _
  conv_rhs => rw [horig]
  rw [List.filter_append, List.filter_append, List.filter_cons]
  by_cases hp : e.target == c.id
  · rw [if_pos hp]
    simp only [List.all_append, List.all_cons]
    have : decide (e.type ≠ "derives") = true := by simpa using hd
    rw [this]
    simp
  · rw [if_neg hp]

/-- The graph-level connectivity check ignores the removal of an edge the
traversal does not follow (provided it is not a `derives` edge, so the
final-claim set is unchanged either). -/
theorem connectivity_erase (g : EvidenceGraph) (i : Nat) (e : Edge)
    (hget : g.edges.get? i = some e)
    (hf : followTypes.contains e.type = false)
    (hd : (e.type ≠ "derives") = true) :
    (_graph_without_edge g i).validate_connectivity = g.validate_connectivity := by
  unfold EvidenceGraph.validate_connectivity
  rw [reachable_erase g i e hget hf, final_claims_erase g i e hget hd]

/-- The loop of `check_minimality`, characterised: under the stated
side conditions (no `KeyError` from any single-edge-removed graph, and
agreement of `_supports_valid` with its spec-side form there) it returns
exactly the edges whose removal passes both checks. -/
theorem checkMinFold_spec (g : EvidenceGraph) (l : List (Nat × Edge))
    (hconn : ∀ p ∈ l, ∃ b, (_graph_without_edge g p.1).validate_connectivity = .ok b)
    (hsv : ∀ p ∈ l, _supports_valid (_graph_without_edge g p.1) =
      supportsStillOkB (_graph_without_edge g p.1)) :
    checkMinFold g l = .ok ((l.filter (fun p => removCond g p.1)).map
      (fun p => p.2.source ++ "->" ++ p.2.target)) := by
  induction l with
  | nil => rfl
  | cons p rest ih =>
    obtain ⟨i, e⟩ := p
    obtain ⟨b, hb0⟩ := hconn (i, e) (List.mem_cons_self _ _)
    have hb : (_graph_without_edge g i).validate_connectivity = .ok b := hb0
    have hrec := ih (fun q hq => hconn q (List.mem_cons_of_mem _ hq))
      (fun q hq => hsv q (List.mem_cons_of_mem _ hq))
    have hcond : removCond g i = (b && supportsStillOkB (_graph_without_edge g i)) := by
      unfold removCond
      rw [hb]
    unfold checkMinFold
    rw [hb, except_bind_ok]
    rcases b with _ | _
    · rw [if_pos rfl, hrec, List.filter_cons]
      simp [hcond]
    · rw [if_neg (by simp), hsv (i, e) (List.mem_cons_self _ _)]
      by_cases hss : supportsStillOkB (_graph_without_edge g i) = false
      · rw [if_pos hss, hrec, List.filter_cons]
        simp [hcond, hss]
      · rw [if_neg hss, hrec, except_bind_ok, List.filter_cons]
        simp only [Bool.not_eq_false] at hss
        simp [hcond, hss]

/-- On a structurally valid graph, no single-edge removal can make the
connectivity check raise. -/
theorem valid_temp_conn (g : EvidenceGraph) (h : validate_graph g = .ok [])
    (i : Nat) : ∃ b, (_graph_without_edge g i).validate_connectivity = .ok b := by
  obtain ⟨_, hend, _⟩ := validate_graph_ok_facts g h
  apply validate_connectivity_ok
  intro e he
  exact (hend e (erase_endpoints g i e he)).2

/-- On a structurally valid graph, `_supports_valid` of any
single-edge-removed graph agrees with the spec-side condition. -/
theorem valid_temp_sv (g : EvidenceGraph) (h : validate_graph g = .ok [])
    (i : Nat) : _supports_valid (_graph_without_edge g i) =
      supportsStillOkB (_graph_without_edge g i) := by
  obtain ⟨_, hend, _⟩ := validate_graph_ok_facts g h
  apply supports_valid_eq_spec
  intro e he _
  constructor
  · rw [get_node_isSome_iff]
    exact (hend e (erase_endpoints g i e he)).1
  · rw [get_node_isSome_iff]
    exact (hend e (erase_endpoints g i e he)).2

/-- `check_minimality` on a structurally valid graph with at least one
edge: exactly the edges passing both removal checks are reported, and the
graph is minimal iff that list is empty. -/
theorem check_minimality_spec (g : EvidenceGraph)
    (hv : validate_graph g = .ok []) (hne : g.edges ≠ []) :
    check_minimality g = .ok ((removableSpec g).isEmpty, removableSpec g) := by
  unfold check_minimality
  rw [if_neg (by simpa using hne)]
  rw [checkMinFold_spec g g.edges.enum
    (fun p _ => valid_temp_conn g hv p.1) (fun p _ => valid_temp_sv g hv p.1),
    except_bind_ok]
  rfl

/-- Decidable equality of `Except` results, for evaluating the embedded
functions at concrete inputs. -/
instance {ε α : Type} [DecidableEq ε] [DecidableEq α] : DecidableEq (Except ε α)
  | .ok a, .ok b =>
    if h : a = b then .isTrue (by rw [h]) else .isFalse (by simp [h])
  | .ok _, .error _ => .isFalse (by simp)
  | .error _, .ok _ => .isFalse (by simp)
  | .error a, .error b =>
    if h : a = b then .isTrue (by rw [h]) else .isFalse (by simp [h])

/-! ### Example graphs used by the witnesses -/

/-- `hashlib.sha256(b"Earth is round").hexdigest()` (reproduced by
`_sha256_hex` below). -/
def earthHashHex : String :=
  "695e47ccb7eafbbe71068cd0fadba8f90a3573ac50909adf96afb624f1b556ab"

/-- A structurally valid one-claim, one-evidence graph whose span equals
the claim text (the shape of the repository's own tests). -/
def exEarthGraph : EvidenceGraph :=
  ⟨[{ id := "c1", type := "claim", text := some "Earth is round" },
    { id := "e1", type := "evidence", url := some "doc1", span := some "Earth is round",
      hash := some earthHashHex }],
   [⟨"e1", "c1", "supports"⟩]⟩

/-- `exEarthGraph` extended with a refutes edge from a second evidence
node. -/
def exRefutesGraph : EvidenceGraph :=
  ⟨[{ id := "c1", type := "claim", text := some "Earth is round" },
    { id := "e1", type := "evidence", span := some "Earth is round" },
    { id := "e2", type := "evidence", span := some "some ancient text" }],
   [⟨"e1", "c1", "supports"⟩, ⟨"e2", "c1", "refutes"⟩]⟩

/-! ### The claims -/

/-- Claim C1: `check_minimality` returns `(false, [])` for every graph
with zero edges; for every structurally valid graph with at least one
edge, an edge is recorded as removable (formatted `source->target`, in
the graph's edge order) if and only if the graph with that edge omitted
both passes the connectivity check (every final claim reachable from
evidence/calc/entailment nodes) and keeps every evidence-to-claim
supports edge classified as supported; `is_minimal` is true iff the
removable list is empty. -/
theorem claim_C1 :
    (∀ g : EvidenceGraph, g.edges = [] → check_minimality g = .ok (false, [])) ∧
    (∀ g : EvidenceGraph, validate_graph g = .ok [] → g.edges ≠ [] →
      check_minimality g = .ok ((removableSpec g).isEmpty, removableSpec g)) := by
  constructor
  · intro g hg
    unfold check_minimality
    rw [hg]
    rfl
  · intro g hv hne
    exact check_minimality_spec g hv hne

/-- Witness for C1 at concrete inputs: the edgeless graph, and the
structurally valid Earth graph. -/
theorem claim_C1_witness :
    check_minimality (⟨[], []⟩ : EvidenceGraph) = .ok (false, []) ∧
    check_minimality exEarthGraph =
      .ok ((removableSpec exEarthGraph).isEmpty, removableSpec exEarthGraph) :=
  ⟨claim_C1.1 ⟨[], []⟩ rfl, claim_C1.2 exEarthGraph (by decide) (by decide)⟩

/-- Claim C9: in a structurally valid graph all of whose evidence-to-claim
supports edges classify as supported, every refutes edge is reported
removable by `check_minimality` (the traversal never follows refutes
edges and the support re-check never inspects them), so such a graph is
never minimal. -/
theorem claim_C9 (g : EvidenceGraph) (i : Nat) (e : Edge)
    (hvalid : validate_graph g = .ok [])
    (hsupp : supportsStillOkB g = true)
    (hmem : g.edges.get? i = some e)
    (htype : e.type = "refutes") :
    ∃ r, check_minimality g = .ok (false, r) ∧ (e.source ++ "->" ++ e.target) ∈ r := by
  have hne : g.edges ≠ [] := by
    intro h0
    rw [h0] at hmem
    simp at hmem
  have hfollow : followTypes.contains e.type = false := by
    rw [htype]
    decide
  have hder : (e.type ≠ "derives") = true := by
    rw [htype]
    decide
  have hconn2 : (_graph_without_edge g i).validate_connectivity = .ok true := by
    rw [connectivity_erase g i e hmem hfollow hder]
    exact (validate_graph_ok_facts g hvalid).2.2
  have hsvspec : supportsStillOkB (_graph_without_edge g i) = true := by
    unfold supportsStillOkB at hsupp ⊢
    have hall := List.all_eq_true.mp hsupp
    apply List.all_eq_true.mpr
    intro x hx
    exact hall x (erase_endpoints g i x hx)
  have hrc : removCond g i = true := by
    unfold removCond
    rw [hconn2, hsvspec]
    rfl
  have hin : (i, e) ∈ g.edges.enum := by
    rw [List.mk_mem_enum_iff_getElem?, ← List.get?_eq_getElem?]
    exact hmem
  have hfmt : (e.source ++ "->" ++ e.target) ∈ removableSpec g := by
    unfold removableSpec
    exact List.mem_map.mpr ⟨(i, e), List.mem_filter.mpr ⟨hin, by simpa using hrc⟩, rfl⟩
  refine ⟨removableSpec g, ?_, hfmt⟩
  rw [check_minimality_spec g hvalid hne]
  have hemp : (removableSpec g).isEmpty = false := by
    have hnn : removableSpec g ≠ [] := List.ne_nil_of_mem hfmt
    simpa [List.isEmpty_iff] using hnn
  rw [hemp]

/-- Witness for C9 at a concrete graph with one supported supports edge
and one refutes edge. -/
theorem claim_C9_witness :
    ∃ r, check_minimality exRefutesGraph = .ok (false, r) ∧ ("e2" ++ "->" ++ "c1") ∈ r :=
  claim_C9 exRefutesGraph 1 ⟨"e2", "c1", "refutes"⟩ (by decide) (by decide) (by decide) rfl

/-- Claim C3: the support classifier returns `unverifiable` on an empty
hypothesis token list; otherwise `contradicted` exactly when some negation
marker and hypothesis token form a two-word phrase occurring in the
lowercased premise (this check takes priority); otherwise `supported`
exactly when the fraction of hypothesis tokens found among the premise
tokens is at least one half, and `unverifiable` for every ratio strictly
below one half (the mid-band collapses into `unverifiable`); and the
France/Paris example classifies as `contradicted`. -/
theorem claim_C3 :
    (∀ p h, _tokenize h = [] → get_support_level p h = "unverifiable") ∧
    (∀ p h, _tokenize h ≠ [] →
      (get_support_level p h = "contradicted" ↔ hasNegationPhrase p h)) ∧
    (∀ p h, _tokenize h ≠ [] → ¬ hasNegationPhrase p h →
      (get_support_level p h = "supported" ↔
        ((supportMatches p h : ℚ) / ((_tokenize h).length : ℚ) ≥ 1 / 2))) ∧
    (∀ p h, _tokenize h ≠ [] → ¬ hasNegationPhrase p h →
      ((supportMatches p h : ℚ) / ((_tokenize h).length : ℚ) < 1 / 2) →
      get_support_level p h = "unverifiable") ∧
    get_support_level "The capital of France is not Paris."
      "France\x27s capital is Paris" = "contradicted" := by
  have hneg : ∀ p h, (negations.any (fun neg =>
      (_tokenize h).any (fun tok => strContains (pyLower p) (neg ++ " " ++ tok)))) = true ↔
      hasNegationPhrase p h := by
    intro p h
    unfold hasNegationPhrase
    simp [List.any_eq_true]
  have hratio : ∀ p h, _tokenize h ≠ [] →
      (2 * supportMatches p h ≥ (_tokenize h).length ↔
        ((supportMatches p h : ℚ) / ((_tokenize h).length : ℚ) ≥ 1 / 2)) := by
    intro p h hne
    have hpos : 0 < ((_tokenize h).length : ℚ) := by
      have : 0 < (_tokenize h).length := List.length_pos.mpr hne
      exact_mod_cast this
    constructor
    · intro hle
      rw [ge_iff_le, le_div_iff₀ hpos]
      have h2 : ((_tokenize h).length : ℚ) ≤ 2 * (supportMatches p h : ℚ) := by
        exact_mod_cast hle
      linarith
    · intro hge
      rw [ge_iff_le, le_div_iff₀ hpos] at hge
      have h2 : ((_tokenize h).length : ℚ) ≤ 2 * (supportMatches p h : ℚ) := by
        linarith
      exact_mod_cast h2
  refine ⟨?_, ?_, ?_, ?_, by decide⟩
  · intro p h hh
    unfold get_support_level
    rw [if_pos (by simp [hh])]
  · intro p h hh
    unfold get_support_level
    rw [if_neg (by simp [hh])]
    by_cases hn : negations.any (fun neg =>
        (_tokenize h).any (fun tok => strContains (pyLower p) (neg ++ " " ++ tok)))
    · rw [if_pos hn]
      simp only [true_iff]
      exact (hneg p h).mp hn
    · rw [if_neg hn]
      rw [← hneg p h] at *
      constructor
      · intro hc
        exfalso
        revert hc
        split <;> [simp; split <;> simp]
      · intro hc
        exact absurd hc hn
  · intro p h hh hnc
    unfold get_support_level
    rw [if_neg (by simp [hh]), if_neg (by rw [hneg p h]; exact hnc)]
    by_cases hs : 2 * supportMatches p h ≥ (_tokenize h).length
    · rw [if_pos (by exact hs)]
      simp only [true_iff]
      exact (hratio p h hh).mp hs
    · rw [if_neg (by exact hs)]
      constructor
      · intro hc
        exfalso
        revert hc
        split <;> simp
      · intro hc
        exact absurd ((hratio p h hh).mpr hc) hs
  · intro p h hh hnc hlt
    unfold get_support_level
    rw [if_neg (by simp [hh]), if_neg (by rw [hneg p h]; exact hnc)]
    have hs : ¬ (2 * supportMatches p h ≥ (_tokenize h).length) := by
      intro habs
      exact absurd ((hratio p h hh).mp habs) (not_le.mpr hlt)
    rw [if_neg (by exact hs)]
    split <;> rfl

/-- Witness for C3 at concrete inputs: an empty hypothesis, the France
example for the contradiction branch, and a supported and an unverifiable
lexical-overlap pair. -/
theorem claim_C3_witness :
    get_support_level "anything" "" = "unverifiable" ∧
    (get_support_level "The capital of France is not Paris."
      "France\x27s capital is Paris" = "contradicted") ∧
    get_support_level "alpha beta" "alpha beta" = "supported" ∧
    get_support_level "alpha beta" "gamma delta epsilon" = "unverifiable" := by
  refine ⟨claim_C3.1 "anything" "" (by decide), claim_C3.2.2.2.2, ?_, ?_⟩
  · refine (claim_C3.2.2.1 "alpha beta" "alpha beta" (by decide) (by decide)).mpr ?_
    rw [show supportMatches "alpha beta" "alpha beta" = 2 from by decide,
      show (_tokenize "alpha beta").length = 2 from by decide]
    norm_num
  · refine claim_C3.2.2.2.1 "alpha beta" "gamma delta epsilon" (by decide) (by decide) ?_
    rw [show supportMatches "alpha beta" "gamma delta epsilon" = 0 from by decide,
      show (_tokenize "gamma delta epsilon").length = 3 from by decide]
    norm_num

/-- Claim C2 (code bug): the checker does evaluate plain arithmetic and
fail closed on errors (`2+2`, `1/0`), but contrary to the documented
grammar, `**` is rejected — `ast.Pow` is listed in `_ALLOWED_NODES` yet
missing from the `_OPS` table, so `check("2**3", "8")` is `False` — and
unary plus does not fail closed: `_eval_node` negates every `UnaryOp`
without inspecting its operator, so `check("+5", "-5")` is `True` (and
`check("~5", "-5")` likewise).  The last conjuncts pin down the parsed
trees and the raised error at the failing inputs. -/
theorem claim_C2_code_evaluation :
    check_numeric_calc "2+2" "4" = true ∧
    check_numeric_calc "2+2" "5" = false ∧
    check_numeric_calc "1/0" "0" = false ∧
    check_numeric_calc "2**3" "8" = false ∧
    check_numeric_calc "+5" "-5" = true ∧
    check_numeric_calc "+5" "5" = false ∧
    check_numeric_calc "~5" "-5" = true ∧
    pyParse "2**3" =
      some (.binOp (.constant (.intV 2)) .powOp (.constant (.intV 3))) ∧
    _eval_node (.binOp (.constant (.intV 2)) .powOp (.constant (.intV 3))) =
      .error "Unsupported operator" ∧
    pyParse "+5" = some (.unaryOp .uAdd (.constant (.intV 5))) ∧
    _eval_node (.unaryOp .uAdd (.constant (.intV 5))) = .ok (.intV (-5)) ∧
    _eval_node (.constant (.strV "ab")) = .ok (.strV "ab") := by
  decide

/-- The graph of claim C5's failing input: a duplicated claim id `c`
together with a supports edge from the evidence node to the missing id
`ghost`. -/
def c5FailingGraph : EvidenceGraph :=
  ⟨[{ id := "e", type := "evidence", span := some "s" },
    { id := "c", type := "claim" },
    { id := "c", type := "claim" }],
   [⟨"e", "ghost", "supports"⟩]⟩

/-- Claim C5 (code bug): `c5FailingGraph` has both a duplicate node id and
a dangling edge (first two conjuncts), and the code does collect both
error messages before the connectivity step (third conjunct), but
`validate_graph` then raises `KeyError("ghost")` out of
`reachable_from_evidence` — `reachable[edge.target]` indexes the dict with
a missing key — instead of completing the pass and returning the
violation list. -/
theorem claim_C5_code_evaluation :
    ((c5FailingGraph.nodes.map Node.id).dedup.length ≠ c5FailingGraph.nodes.length) ∧
    (∃ e ∈ c5FailingGraph.edges, e.target ∉ c5FailingGraph.nodes.map Node.id) ∧
    dupIdErrors c5FailingGraph ++ danglingErrors c5FailingGraph =
      ["Duplicate node identifiers found", "Edge target ghost does not exist"] ∧
    validate_graph c5FailingGraph = .error (.keyError "ghost") := by
  decide

/-- Unpacking a passing evidence node of the hash check. -/
theorem nodeBinding_pass (n : Node) (ht : n.type = "evidence")
    (h : nodeBindingProblems n = []) :
    n.span.getD "" ≠ "" ∧ n.hash.getD "" ≠ "" ∧
      _sha256_hex (n.span.getD "") = n.hash.getD "" := by
  unfold nodeBindingProblems at h
  rw [if_neg (by simp [ht])] at h
  by_cases h1 : n.span.getD "" = ""
  · rw [if_pos h1] at h
    simp at h
  · rw [if_neg h1] at h
    by_cases h2 : n.hash.getD "" = ""
    · rw [if_pos h2] at h
      simp at h
    · rw [if_neg h2] at h
      by_cases h3 : _sha256_hex (n.span.getD "") ≠ n.hash.getD ""
      · rw [if_pos h3] at h
        simp at h
      · exact ⟨h1, h2, not_not.mp h3⟩

/-- The evidence node of `exEarthGraph`. -/
def eEarthNode : Node :=
  { id := "e1", type := "evidence", url := some "doc1", span := some "Earth is round",
    hash := some earthHashHex }

/-- Claim C4: the hash check records a problem for an evidence node exactly
when its span is empty, its hash is empty, or the recomputed SHA-256 hex
digest of the span differs from the stored hash (the mismatch message
naming the node id); non-evidence nodes are skipped; passed iff the
problem list is empty; and a previously passing node flips to a problem
when its hash is altered, or when its span is altered so that the digest
changes (demonstrated concretely on a one-character span edit in the last
conjunct). -/
theorem claim_C4 :
    (∀ g : EvidenceGraph,
      ((check_source_binding g).1 = true ↔ (check_source_binding g).2 = []) ∧
      (check_source_binding g).2 = g.nodes.flatMap nodeBindingProblems) ∧
    (∀ n : Node, n.type = "evidence" →
      (nodeBindingProblems n ≠ [] ↔
        (n.span.getD "" = "" ∨ n.hash.getD "" = "" ∨
          _sha256_hex (n.span.getD "") ≠ n.hash.getD ""))) ∧
    (∀ n : Node, n.type = "evidence" → n.span.getD "" ≠ "" → n.hash.getD "" ≠ "" →
      _sha256_hex (n.span.getD "") ≠ n.hash.getD "" →
      nodeBindingProblems n = ["hash mismatch for " ++ n.id]) ∧
    (∀ n : Node, n.type ≠ "evidence" → nodeBindingProblems n = []) ∧
    (∀ (n : Node) (h2 : String), n.type = "evidence" → nodeBindingProblems n = [] →
      h2 ≠ n.hash.getD "" → h2 ≠ "" →
      nodeBindingProblems { n with hash := some h2 } = ["hash mismatch for " ++ n.id]) ∧
    (∀ (n : Node) (s2 : String), n.type = "evidence" → nodeBindingProblems n = [] →
      s2 ≠ "" → _sha256_hex s2 ≠ _sha256_hex (n.span.getD "") →
      nodeBindingProblems { n with span := some s2 } = ["hash mismatch for " ++ n.id]) ∧
    _sha256_hex "Earth is round" ≠ _sha256_hex "Earth is sound" := by
  refine ⟨?_, ?_, ?_, ?_, ?_, ?_, by decide⟩
  · intro g
    constructor
    · unfold check_source_binding
      exact List.isEmpty_iff
    · rfl
  · intro n ht
    constructor
    · intro hne
      by_contra hall
      push_neg at hall
      obtain ⟨h1, h2, h3⟩ := hall
      apply hne
      unfold nodeBindingProblems
      rw [if_neg (by simp [ht]), if_neg h1, if_neg h2, if_neg (by simpa using h3)]
    · intro hcases hnil
      obtain ⟨h1, h2, h3⟩ := nodeBinding_pass n ht hnil
      rcases hcases with hc | hc | hc
      · exact h1 hc
      · exact h2 hc
      · exact hc h3
  · intro n ht h1 h2 h3
    unfold nodeBindingProblems
    rw [if_neg (by simp [ht]), if_neg h1, if_neg h2, if_pos h3]
  · intro n ht
    unfold nodeBindingProblems
    rw [if_pos (by simpa using ht)]
  · intro n h2 ht hpass hne hne2
    obtain ⟨hs, _, hdig⟩ := nodeBinding_pass n ht hpass
    unfold nodeBindingProblems
    have htype : ({ n with hash := some h2 } : Node).type = n.type := rfl
    rw [htype, if_neg (by simp [ht])]
    have hspan : ({ n with hash := some h2 } : Node).span = n.span := rfl
    have hhash : ({ n with hash := some h2 } : Node).hash.getD "" = h2 := rfl
    rw [hspan, hhash, if_neg hs, if_neg hne2,
      if_pos (by rw [hdig]; exact fun hx => hne hx.symm)]
  · intro n s2 ht hpass hne hdig2
    obtain ⟨_, hh, hdig⟩ := nodeBinding_pass n ht hpass
    unfold nodeBindingProblems
    have htype : ({ n with span := some s2 } : Node).type = n.type := rfl
    have hspan : ({ n with span := some s2 } : Node).span.getD "" = s2 := rfl
    have hhash : ({ n with span := some s2 } : Node).hash = n.hash := rfl
    rw [htype, if_neg (by simp [ht]), hspan, hhash, if_neg hne, if_neg hh,
      if_pos (by rw [← hdig]; exact hdig2)]

/-- Witness for C4: the Earth evidence node passes, and tampering with one
character of its hash or its span produces the mismatch problem. -/
theorem claim_C4_witness :
    nodeBindingProblems { eEarthNode with
      hash := some "695e47ccb7eafbbe71068cd0fadba8f90a3573ac50909adf96afb624f1b556ac" } =
      ["hash mismatch for " ++ "e1"] ∧
    nodeBindingProblems { eEarthNode with span := some "Earth is sound" } =
      ["hash mismatch for " ++ "e1"] :=
  ⟨claim_C4.2.2.2.2.1 eEarthNode
      "695e47ccb7eafbbe71068cd0fadba8f90a3573ac50909adf96afb624f1b556ac"
      rfl (by decide) (by decide) (by decide),
   claim_C4.2.2.2.2.2.1 eEarthNode "Earth is sound" rfl (by decide) (by decide) (by decide)⟩

/-- The single-support graph of claim C7: one claim, one evidence node
whose span equals the claim text, one supports edge. -/
def c7Graph1 (T : String) : EvidenceGraph :=
  ⟨[{ id := "c", type := "claim", text := some T },
    { id := "e1", type := "evidence", span := some T }],
   [⟨"e1", "c", "supports"⟩]⟩

/-- The graph of claim C7 with a second, equally supporting evidence
node. -/
def c7Graph2 (T : String) : EvidenceGraph :=
  ⟨[{ id := "c", type := "claim", text := some T },
    { id := "e1", type := "evidence", span := some T },
    { id := "e2", type := "evidence", span := some T }],
   [⟨"e1", "c", "supports"⟩, ⟨"e2", "c", "supports"⟩]⟩

/-- Claim C7: a graph of one claim and one evidence node whose span equals
the claim text, joined by one supports edge, is reported minimal with an
empty removable list (removing the only edge always severs the claim from
evidence); adding a second equally-supporting evidence node and edge makes
the graph non-minimal with both supports edges removable.  The hypothesis
states that the shared span/text supports itself, which is the "equally
supporting" premise of the claim. -/
theorem claim_C7 (T : String) (hsupp : get_support_level T T = "supported") :
    check_minimality (c7Graph1 T) = .ok (true, []) ∧
    check_minimality (c7Graph2 T) =
      .ok (false, ["e1" ++ "->" ++ "c", "e2" ++ "->" ++ "c"]) := by
  constructor
  · rfl
  · have h0 : removCond (c7Graph2 T) 0 = true := by
      have he : removCond (c7Graph2 T) 0 =
          ((get_support_level T T == "supported") && true) := rfl
      rw [he, hsupp]
      rfl
    have h1 : removCond (c7Graph2 T) 1 = true := by
      have he : removCond (c7Graph2 T) 1 =
          ((get_support_level T T == "supported") && true) := rfl
      rw [he, hsupp]
      rfl
    have hr : removableSpec (c7Graph2 T) = ["e1" ++ "->" ++ "c", "e2" ++ "->" ++ "c"] := by
      unfold removableSpec
      have henum : (c7Graph2 T).edges.enum =
          [(0, ⟨"e1", "c", "supports"⟩), (1, ⟨"e2", "c", "supports"⟩)] := rfl
      rw [henum, List.filter_cons, List.filter_cons, List.filter_nil,
        if_pos (show removCond (c7Graph2 T) (0, (⟨"e1", "c", "supports"⟩ : Edge)).1 = true
          from h0),
        if_pos (show removCond (c7Graph2 T) (1, (⟨"e2", "c", "supports"⟩ : Edge)).1 = true
          from h1)]
      rfl
    rw [check_minimality_spec (c7Graph2 T) rfl
      (by
        rw [show (c7Graph2 T).edges =
          [⟨"e1", "c", "supports"⟩, ⟨"e2", "c", "supports"⟩] from rfl]
        decide), hr]
    rfl

/-- Witness for C7 at the concrete text of the repository's end-to-end
example. -/
theorem claim_C7_witness :
    check_minimality (c7Graph1 "Earth is round") = .ok (true, []) ∧
    check_minimality (c7Graph2 "Earth is round") =
      .ok (false, ["e1" ++ "->" ++ "c", "e2" ++ "->" ++ "c"]) :=
  claim_C7 "Earth is round" (by decide)

/-- `bind` over a failure, as an equation for rewriting. -/
theorem except_bind_err {α β ε : Type} (e : ε) (f : α → Except ε β) :
    (Except.error (α := α) e >>= f) = .error e := rfl

/-- A record whose keys all avoid `k` never resolves `k`. -/
theorem rlookup_none (ex : RawRecord) (k : String)
    (hk : ∀ kv ∈ ex, kv.1 ≠ k) : rlookup ex k = none := by
  induction ex with
  | nil => rfl
  | cons kv t ih =>
    unfold rlookup
    rw [if_neg (by simpa using hk kv (List.mem_cons_self kv t))]
    exact ih (fun kv2 h2 => hk kv2 (List.mem_cons_of_mem kv h2))

/-- Appending entries with other keys never changes a lookup. -/
theorem rlookup_append (r ex : RawRecord) (k : String)
    (hk : ∀ kv ∈ ex, kv.1 ≠ k) : rlookup (r ++ ex) k = rlookup r k := by
  induction r with
  | nil =>
    rw [List.nil_append]
    exact rlookup_none ex k hk
  | cons kv t ih =>
    rw [List.cons_append]
    unfold rlookup
    by_cases hkk : kv.1 == k
    · rw [if_pos hkk, if_pos hkk]
    · rw [if_neg hkk, if_neg hkk]
      exact ih

/-- `buildEdge` only reads the `source`, `target` and `type` keys, so
appended entries with any other keys are dropped. -/
theorem buildEdge_append (r ex : RawRecord)
    (hk : ∀ kv ∈ ex, kv.1 ≠ "source" ∧ kv.1 ≠ "target" ∧ kv.1 ≠ "type") :
    buildEdge (r ++ ex) = buildEdge r := by
  unfold buildEdge
  rw [rlookup_append r ex "source" (fun kv h => (hk kv h).1),
    rlookup_append r ex "target" (fun kv h => (hk kv h).2.1),
    rlookup_append r ex "type" (fun kv h => (hk kv h).2.2)]

/-- `mapM buildEdge` over extended records equals `mapM buildEdge` over
the plain records. -/
theorem mapM_buildEdge_append (eds : List (RawRecord × RawRecord))
    (hk : ∀ p ∈ eds, ∀ kv ∈ p.2, kv.1 ≠ "source" ∧ kv.1 ≠ "target" ∧ kv.1 ≠ "type") :
    (eds.map (fun p => p.1 ++ p.2)).mapM buildEdge =
      (eds.map (fun p => p.1)).mapM buildEdge := by
  induction eds with
  | nil => rfl
  | cons p t ih =>
    simp only [List.map_cons, List.mapM_cons]
    rw [buildEdge_append p.1 p.2 (hk p (List.mem_cons_self p t)),
      ih (fun q hq => hk q (List.mem_cons_of_mem p hq))]

/-- Claim C10: adding keys other than `source`, `target` and `type` to
edge records yields an identical compiled graph — `compile_graph` silently
drops unknown edge keys exactly as it does for node records. -/
theorem claim_C10 (rawNodes : List RawRecord) (eds : List (RawRecord × RawRecord))
    (hk : ∀ p ∈ eds, ∀ kv ∈ p.2, kv.1 ≠ "source" ∧ kv.1 ≠ "target" ∧ kv.1 ≠ "type") :
    compile_graph ⟨rawNodes, eds.map (fun p => p.1 ++ p.2)⟩ =
      compile_graph ⟨rawNodes, eds.map (fun p => p.1)⟩ := by
  unfold compile_graph
  rw [mapM_buildEdge_append eds hk]

/-- Witness for C10: the Earth raw graph with an extra `weight` key on its
edge record compiles to the same graph as without it. -/
theorem claim_C10_witness :
    compile_graph
      ⟨[[("id", "c1"), ("type", "claim"), ("text", "Earth is round")],
        [("id", "e1"), ("type", "evidence"), ("span", "Earth is round")]],
       [[("source", "e1"), ("target", "c1"), ("type", "supports"), ("weight", "3")]]⟩ =
    compile_graph
      ⟨[[("id", "c1"), ("type", "claim"), ("text", "Earth is round")],
        [("id", "e1"), ("type", "evidence"), ("span", "Earth is round")]],
       [[("source", "e1"), ("target", "c1"), ("type", "supports")]]⟩ :=
  claim_C10
    [[("id", "c1"), ("type", "claim"), ("text", "Earth is round")],
     [("id", "e1"), ("type", "evidence"), ("span", "Earth is round")]]
    [([("source", "e1"), ("target", "c1"), ("type", "supports")], [("weight", "3")])]
    (by decide)

/-- A successful `mapM` transports along a permutation of its input, and
the outputs are permutations of each other. -/
theorem mapM_ok_perm {α β : Type} (f : α → Except PyError β) {l1 l2 : List α}
    (hp : l1.Perm l2) :
    ∀ {r1 : List β}, l1.mapM f = .ok r1 → ∃ r2, l2.mapM f = .ok r2 ∧ r1.Perm r2 := by
  induction hp with
  | nil =>
    intro r1 h
    exact ⟨r1, h, List.Perm.refl _⟩
  | @cons x t1 t2 hp ih =>
    intro r1 h
    rw [List.mapM_cons] at h
    match hfx : f x with
    | .error e =>
      rw [hfx, except_bind_err] at h
      exact absurd h (by simp)
    | .ok b =>
      rw [hfx, except_bind_ok] at h
      match ht : t1.mapM f with
      | .error e =>
        rw [ht, except_bind_err] at h
        exact absurd h (by simp)
      | .ok rs =>
        rw [ht, except_bind_ok] at h
        obtain ⟨rs2, ht2, hprs⟩ := ih ht
        refine ⟨b :: rs2, ?_, ?_⟩
        · rw [List.mapM_cons, hfx, except_bind_ok, ht2, except_bind_ok]
          rfl
        · have hr1 : r1 = b :: rs := by
            have := Except.ok.inj h
            simpa using this.symm
          rw [hr1]
          exact hprs.cons b
  | @swap x y t =>
    intro r1 h
    rw [List.mapM_cons] at h
    match hfy : f y with
    | .error e =>
      rw [hfy, except_bind_err] at h
      exact absurd h (by simp)
    | .ok by2 =>
      rw [hfy, except_bind_ok, List.mapM_cons] at h
      match hfx : f x with
      | .error e =>
        rw [hfx, except_bind_err, except_bind_err] at h
        exact absurd h (by simp)
      | .ok bx =>
        rw [hfx, except_bind_ok] at h
        match ht : t.mapM f with
        | .error e =>
          rw [ht, except_bind_err, except_bind_err] at h
          exact absurd h (by simp)
        | .ok rs =>
          rw [ht, except_bind_ok] at h
          have hr1 : r1 = by2 :: bx :: rs := by
            have := Except.ok.inj h
            simpa using this.symm
          refine ⟨bx :: by2 :: rs, ?_, ?_⟩
          · rw [List.mapM_cons, hfx, except_bind_ok, List.mapM_cons, hfy,
              except_bind_ok, ht, except_bind_ok]
            rfl
          · rw [hr1]
            exact List.Perm.swap bx by2 rs
  | trans hp1 hp2 ih1 ih2 =>
    intro r1 h
    obtain ⟨rm, hm, hpm⟩ := ih1 h
    obtain ⟨r2, h2, hp2b⟩ := ih2 hm
    exact ⟨r2, h2, hpm.trans hp2b⟩

/-- Two id-sorted node lists that are permutations of each other with
pairwise-distinct ids are equal. -/
theorem sorted_perm_nodup_id_eq :
    ∀ (l1 l2 : List Node), l1.Perm l2 → l1.Sorted nodeLe → l2.Sorted nodeLe →
      (l1.map Node.id).Nodup → l1 = l2 := by
  intro l1
  induction l1 with
  | nil =>
    intro l2 hp _ _ _
    exact hp.nil_eq
  | cons a t ih =>
    intro l2 hp hs1 hs2 hnd
    match l2 with
    | [] => exact absurd hp.symm.nil_eq (by simp)
    | b :: t2 =>
      have hnd2 : (a.id :: t.map Node.id).Nodup := by
        simpa using hnd
      have hab : a = b := by
        have hamem : a ∈ b :: t2 := hp.subset (List.mem_cons_self a t)
        have hbmem : b ∈ a :: t := hp.symm.subset (List.mem_cons_self b t2)
        rcases List.mem_cons.mp hamem with hab | hat2
        · exact hab
        rcases List.mem_cons.mp hbmem with hba | hbt
        · exact hba.symm
        have h1 : nodeLe a b := (List.sorted_cons.mp hs1).1 b hbt
        have h2 : nodeLe b a := (List.sorted_cons.mp hs2).1 a hat2
        have hid : a.id = b.id := stringDataInj _ _ (le_antisymm h1 h2)
        have : a.id ∈ t.map Node.id := List.mem_map.mpr ⟨b, hbt, hid.symm⟩
        exact absurd this (List.nodup_cons.mp hnd2).1
      subst hab
      have hpt : t.Perm t2 := hp.cons_inv
      have := ih t2 hpt (List.sorted_cons.mp hs1).2 (List.sorted_cons.mp hs2).2
        (List.nodup_cons.mp hnd2).2
      rw [this]

/-- Unpacking a successful compile: built node and edge lists, the sorted
graph, and a passing validation. -/
theorem compile_ok_parts (raw : RawGraph) (g : EvidenceGraph)
    (h : compile_graph raw = .ok g) :
    ∃ ns es, raw.nodes.mapM buildNode = .ok ns ∧ raw.edges.mapM buildEdge = .ok es ∧
      g = ⟨List.insertionSort nodeLe ns, List.insertionSort edgeLe es⟩ ∧
      validate_graph g = .ok [] := by
  unfold compile_graph at h
  match hn : raw.nodes.mapM buildNode with
  | .error e =>
    rw [hn, except_bind_err] at h
    exact absurd h (by simp)
  | .ok ns =>
    rw [hn, except_bind_ok] at h
    match he : raw.edges.mapM buildEdge with
    | .error e =>
      rw [he, except_bind_err] at h
      exact absurd h (by simp)
    | .ok es =>
      rw [he, except_bind_ok] at h
      unfold compileValidate at h
      match hv : validate_graph ⟨List.insertionSort nodeLe ns, List.insertionSort edgeLe es⟩ with
      | .error e =>
        rw [hv, except_bind_err] at h
        exact absurd h (by simp)
      | .ok errs =>
        rw [hv, except_bind_ok] at h
        by_cases hemp : errs.isEmpty
        · rw [if_pos hemp] at h
          have hg := Except.ok.inj h
          refine ⟨ns, es, rfl, rfl, hg.symm, ?_⟩
          rw [← hg]
          rw [hv, List.isEmpty_iff.mp hemp]
        · rw [if_neg hemp] at h
          exact absurd h (by simp)

/-- A list whose `dedup` has full length has no duplicates. -/
theorem nodup_of_dedup_length {α : Type} [DecidableEq α] (l : List α)
    (h : l.dedup.length = l.length) : l.Nodup :=
  List.dedup_eq_self.mp ((List.dedup_sublist l).eq_of_length h)

/-- Claim C6: compiling two raw inputs whose node and edge record lists
are permutations of each other yields equal graphs, and every compiled
graph has its nodes sorted by id and its edges sorted by the
`(source, target, type)` lexicographic key — the canonical serialised
form is content-derived, not input-order-derived. -/
theorem claim_C6 :
    (∀ (raw1 raw2 : RawGraph) (g1 g2 : EvidenceGraph),
      raw1.nodes.Perm raw2.nodes → raw1.edges.Perm raw2.edges →
      compile_graph raw1 = .ok g1 → compile_graph raw2 = .ok g2 → g1 = g2) ∧
    (∀ (raw : RawGraph) (g : EvidenceGraph), compile_graph raw = .ok g →
      g.nodes.Sorted nodeLe ∧ g.edges.Sorted edgeLe) := by
  constructor
  · intro raw1 raw2 g1 g2 hpn hpe h1 h2
    obtain ⟨ns1, es1, hn1, he1, hg1, hv1⟩ := compile_ok_parts raw1 g1 h1
    obtain ⟨ns2, es2, hn2, he2, hg2, hv2⟩ := compile_ok_parts raw2 g2 h2
    obtain ⟨ns2b, hn2b, hnperm⟩ := mapM_ok_perm buildNode hpn hn1
    obtain ⟨es2b, he2b, heperm⟩ := mapM_ok_perm buildEdge hpe he1
    have hns : ns2b = ns2 := Except.ok.inj (hn2b.symm.trans hn2)
    have hes : es2b = es2 := Except.ok.inj (he2b.symm.trans he2)
    rw [hns] at hnperm
    rw [hes] at heperm
    have hpnodes : g1.nodes.Perm g2.nodes := by
      rw [hg1, hg2]
      exact ((List.perm_insertionSort nodeLe ns1).trans hnperm).trans
        (List.perm_insertionSort nodeLe ns2).symm
    have hpedges : g1.edges.Perm g2.edges := by
      rw [hg1, hg2]
      exact ((List.perm_insertionSort edgeLe es1).trans heperm).trans
        (List.perm_insertionSort edgeLe es2).symm
    have hs1n : g1.nodes.Sorted nodeLe := by
      rw [hg1]
      exact List.sorted_insertionSort nodeLe ns1
    have hs2n : g2.nodes.Sorted nodeLe := by
      rw [hg2]
      exact List.sorted_insertionSort nodeLe ns2
    have hs1e : g1.edges.Sorted edgeLe := by
      rw [hg1]
      exact List.sorted_insertionSort edgeLe es1
    have hs2e : g2.edges.Sorted edgeLe := by
      rw [hg2]
      exact List.sorted_insertionSort edgeLe es2
    have hnd : (g1.nodes.map Node.id).Nodup := by
      apply nodup_of_dedup_length
      rw [List.length_map]
      exact (validate_graph_ok_facts g1 hv1).1
    have hnodes : g1.nodes = g2.nodes :=
      sorted_perm_nodup_id_eq g1.nodes g2.nodes hpnodes hs1n hs2n hnd
    have hedges : g1.edges = g2.edges :=
      List.eq_of_perm_of_sorted hpedges hs1e hs2e
    obtain ⟨n1, e1⟩ := g1
    obtain ⟨n2, e2⟩ := g2
    simp only at hnodes hedges
    rw [hnodes, hedges]
  · intro raw g h
    obtain ⟨ns, es, _, _, hg, _⟩ := compile_ok_parts raw g h
    rw [hg]
    exact ⟨List.sorted_insertionSort nodeLe ns, List.sorted_insertionSort edgeLe es⟩

/-- Witness for C6: the Earth raw input and its node-reversed permutation
compile to the same graph. -/
theorem claim_C6_witness :
    exEarthGraph = exEarthGraph :=
  claim_C6.1
    ⟨[[("id", "c1"), ("type", "claim"), ("text", "Earth is round")],
      [("id", "e1"), ("type", "evidence"), ("url", "doc1"),
       ("span", "Earth is round"), ("hash", earthHashHex)]],
     [[("source", "e1"), ("target", "c1"), ("type", "supports")]]⟩
    ⟨[[("id", "e1"), ("type", "evidence"), ("url", "doc1"),
       ("span", "Earth is round"), ("hash", earthHashHex)],
      [("id", "c1"), ("type", "claim"), ("text", "Earth is round")]],
     [[("source", "e1"), ("target", "c1"), ("type", "supports")]]⟩
    exEarthGraph exEarthGraph
    (by decide) (by decide) (by decide) (by decide)

/-! ### Claim C8: entailment payloads never influence verification

`scrubNode` clears the `premise` and `hypothesis` fields of entailment
nodes, so two graphs differ only in those fields iff their scrubbed forms
are equal; every function `_verify` runs is shown invariant under the
scrub. -/

/-- Clear the entailment payload of a node. -/
def scrubNode (n : Node) : Node :=
  if n.type = "entailment" then { n with premise := none, hypothesis := none } else n

/-- Clear the entailment payloads of a graph. -/
def scrubGraph (g : EvidenceGraph) : EvidenceGraph :=
  ⟨g.nodes.map scrubNode, g.edges⟩

theorem scrubNode_id (n : Node) : (scrubNode n).id = n.id := by
  unfold scrubNode
  split <;> rfl

theorem scrubNode_type (n : Node) : (scrubNode n).type = n.type := by
  unfold scrubNode
  split <;> rfl

theorem scrubNode_span (n : Node) : (scrubNode n).span = n.span := by
  unfold scrubNode
  split <;> rfl

theorem scrubNode_text (n : Node) : (scrubNode n).text = n.text := by
  unfold scrubNode
  split <;> rfl

theorem scrubNode_hash (n : Node) : (scrubNode n).hash = n.hash := by
  unfold scrubNode
  split <;> rfl

theorem scrubNode_code (n : Node) : (scrubNode n).code = n.code := by
  unfold scrubNode
  split <;> rfl

theorem scrubNode_result (n : Node) : (scrubNode n).result = n.result := by
  unfold scrubNode
  split <;> rfl

theorem findNodeById_scrub (l : List Node) (k : String) :
    findNodeById (l.map scrubNode) k = (findNodeById l k).map scrubNode := by
  induction l with
  | nil => rfl
  | cons n t ih =>
    simp only [List.map_cons]
    unfold findNodeById
    rw [scrubNode_id]
    by_cases h : n.id == k
    · rw [if_pos h, if_pos h]
      rfl
    · rw [if_neg h, if_neg h]
      exact ih

theorem get_node_scrub (g : EvidenceGraph) (k : String) :
    (scrubGraph g).get_node k = (g.get_node k).map scrubNode := by
  have h1 : (scrubGraph g).get_node k = findNodeById ((g.nodes.map scrubNode).reverse) k := rfl
  rw [h1, show (g.nodes.map scrubNode).reverse = g.nodes.reverse.map scrubNode from (List.map_reverse scrubNode g.nodes).symm]
  exact findNodeById_scrub g.nodes.reverse k

/-- Mapping a scrub-invariant function over scrubbed nodes. -/
theorem map_scrub {α : Type} (l : List Node) (f : Node → α)
    (hf : ∀ n, f (scrubNode n) = f n) : (l.map scrubNode).map f = l.map f := by
  induction l with
  | nil => rfl
  | cons n t ih =>
    simp only [List.map_cons]
    rw [hf n, ih]

/-- Filtering by a scrub-invariant predicate commutes with the scrub. -/
theorem filter_scrub (l : List Node) (p : Node → Bool)
    (hp : ∀ n, p (scrubNode n) = p n) :
    (l.map scrubNode).filter p = (l.filter p).map scrubNode := by
  induction l with
  | nil => rfl
  | cons n t ih =>
    simp only [List.map_cons, List.filter_cons]
    rw [hp n]
    by_cases h : p n
    · rw [if_pos h, if_pos h, List.map_cons, ih]
    · rw [if_neg h, if_neg h, ih]

/-- `all` of a scrub-invariant predicate over scrubbed nodes. -/
theorem all_scrub (l : List Node) (p : Node → Bool)
    (hp : ∀ n, p (scrubNode n) = p n) : (l.map scrubNode).all p = l.all p := by
  induction l with
  | nil => rfl
  | cons n t ih =>
    simp only [List.map_cons, List.all_cons]
    rw [hp n, ih]

/-- `flatMap` of a scrub-invariant function over scrubbed nodes. -/
theorem flatMap_scrub (l : List Node) (f : Node → List String)
    (hf : ∀ n, f (scrubNode n) = f n) :
    (l.map scrubNode).flatMap f = l.flatMap f := by
  induction l with
  | nil => rfl
  | cons n t ih =>
    simp only [List.map_cons, List.flatMap_cons]
    rw [hf n, ih]

/-- `flatMap` only depends on the function's values on the list. -/
theorem list_flatMap_congr {α : Type} (l : List α) (f g : α → List String)
    (h : ∀ x ∈ l, f x = g x) : l.flatMap f = l.flatMap g := by
  induction l with
  | nil => rfl
  | cons a t ih =>
    simp only [List.flatMap_cons]
    rw [h a (List.mem_cons_self a t), ih (fun x hx => h x (List.mem_cons_of_mem a hx))]

theorem seeds_scrub (g : EvidenceGraph) : (scrubGraph g).seeds = g.seeds := by
  have h1 : (scrubGraph g).seeds =
      ((g.nodes.map scrubNode).filter (fun n => seedTypes.contains n.type)).map Node.id := rfl
  rw [h1, filter_scrub g.nodes _ (fun n => by rw [scrubNode_type]),
    map_scrub _ Node.id scrubNode_id]
  rfl

theorem initReach_scrub (g : EvidenceGraph) : initReach (scrubGraph g) = initReach g := by
  have h1 : initReach (scrubGraph g) =
      (((g.nodes.map scrubNode).map Node.id).dedup).map (fun i => (i, false)) := rfl
  rw [h1, map_scrub _ Node.id scrubNode_id]
  rfl

theorem reachable_scrub (g : EvidenceGraph) :
    (scrubGraph g).reachable_from_evidence = g.reachable_from_evidence := by
  unfold EvidenceGraph.reachable_from_evidence
  rw [seeds_scrub, initReach_scrub,
    show (scrubGraph g).edges = g.edges from rfl,
    show (scrubGraph g).nodes.length = g.nodes.length from by
      show (g.nodes.map scrubNode).length = g.nodes.length
      rw [List.length_map]]

theorem final_claims_scrub (g : EvidenceGraph) :
    (scrubGraph g).final_claims = g.final_claims.map scrubNode := by
  have h1 : (scrubGraph g).final_claims =
      ((g.nodes.map scrubNode).filter (fun n => n.type == "claim")).filter
        (fun c => g.is_final_claim c) := rfl
  rw [h1, filter_scrub g.nodes _ (fun n => by rw [scrubNode_type]),
    filter_scrub _ (fun c => g.is_final_claim c) (fun n => by
      show (g.incoming (scrubNode n).id).all _ = (g.incoming n.id).all _
      rw [scrubNode_id])]
  rfl

theorem connectivity_scrub (g : EvidenceGraph) :
    (scrubGraph g).validate_connectivity = g.validate_connectivity := by
  have hcomp : ∀ (r : List (String × Bool)),
      (g.final_claims.map scrubNode).all (fun c => (rlookupB r c.id).getD false) =
      g.final_claims.all (fun c => (rlookupB r c.id).getD false) :=
    fun r => all_scrub _ _ (fun n => by simp [scrubNode_id])
  unfold EvidenceGraph.validate_connectivity
  rw [reachable_scrub, final_claims_scrub]
  simp only [hcomp]

theorem supports_scrub (g : EvidenceGraph) :
    _supports_valid (scrubGraph g) = _supports_valid g := by
  unfold _supports_valid
  refine list_all_congr g.edges _ _ (fun e _ => ?_)
  rw [get_node_scrub, get_node_scrub]
  by_cases ht : e.type ≠ "supports"
  · rw [if_pos ht, if_pos ht]
  · rw [if_neg ht, if_neg ht]
    match g.get_node e.source, g.get_node e.target with
    | some src, some tgt =>
      simp [scrubNode_type, scrubNode_span, scrubNode_text]
    | none, none => rfl
    | none, some _ => rfl
    | some _, none => rfl

theorem entail_scrub (g : EvidenceGraph) :
    entailLevels (scrubGraph g) = entailLevels g := by
  unfold entailLevels
  refine list_flatMap_congr g.edges _ _ (fun e _ => ?_)
  rw [get_node_scrub, get_node_scrub]
  by_cases ht : e.type ≠ "supports"
  · rw [if_pos ht, if_pos ht]
  · rw [if_neg ht, if_neg ht]
    match g.get_node e.source, g.get_node e.target with
    | some src, some tgt =>
      simp [scrubNode_type, scrubNode_span, scrubNode_text]
    | none, none => rfl
    | none, some _ => rfl
    | some _, none => rfl

theorem nodeBindingProblems_scrub (n : Node) :
    nodeBindingProblems (scrubNode n) = nodeBindingProblems n := by
  unfold scrubNode
  split
  · rename_i h
    unfold nodeBindingProblems
    have ht : ({ n with premise := none, hypothesis := none } : Node).type = n.type := rfl
    rw [ht, h]
  · rfl

theorem hash_scrub (g : EvidenceGraph) :
    check_source_binding (scrubGraph g) = check_source_binding g := by
  unfold check_source_binding
  rw [show (scrubGraph g).nodes = g.nodes.map scrubNode from rfl,
    flatMap_scrub g.nodes nodeBindingProblems nodeBindingProblems_scrub]

theorem numeric_scrub (g : EvidenceGraph) :
    numericProblems (scrubGraph g) = numericProblems g := by
  unfold numericProblems
  rw [show (scrubGraph g).nodes = g.nodes.map scrubNode from rfl]
  apply flatMap_scrub
  intro n
  simp [scrubNode_type, scrubNode_code, scrubNode_result, scrubNode_id]

theorem minimality_scrub (g : EvidenceGraph) :
    check_minimality (scrubGraph g) = check_minimality g := by
  have hfold : ∀ l, checkMinFold (scrubGraph g) l = checkMinFold g l := by
    intro l
    induction l with
    | nil => rfl
    | cons p rest ih =>
      obtain ⟨i, e⟩ := p
      unfold checkMinFold
      rw [show _graph_without_edge (scrubGraph g) i = scrubGraph (_graph_without_edge g i)
        from rfl]
      rw [connectivity_scrub (_graph_without_edge g i),
        supports_scrub (_graph_without_edge g i), ih]
  unfold check_minimality
  rw [show (scrubGraph g).edges = g.edges from rfl, hfold]

theorem verify_scrub (g : EvidenceGraph) : _verify (scrubGraph g) = _verify g := by
  unfold _verify
  rw [hash_scrub, entail_scrub, minimality_scrub, numeric_scrub]

/-- Claim C8: entailment-node contents never influence verification — on
two structurally valid graphs that differ only in the `premise` and
`hypothesis` fields of their entailment-type nodes (equivalently, whose
scrubbed forms coincide), `_verify` returns identical results; no check
reads those fields. -/
theorem claim_C8 (g1 g2 : EvidenceGraph)
    (_hvalid : validate_graph g1 = .ok [])
    (hsame : scrubGraph g1 = scrubGraph g2) :
    _verify g1 = _verify g2 := by
  calc _verify g1 = _verify (scrubGraph g1) := (verify_scrub g1).symm
    _ = _verify (scrubGraph g2) := by rw [hsame]
    _ = _verify g2 := verify_scrub g2

/-- The graph family of the C8 witness: the Earth graph plus an
entailment node with a varying premise. -/
def c8Graph (p : String) : EvidenceGraph :=
  ⟨[{ id := "c1", type := "claim", text := some "Earth is round" },
    { id := "e1", type := "evidence", url := some "doc1", span := some "Earth is round",
      hash := some earthHashHex },
    { id := "n1", type := "entailment", premise := some p, hypothesis := some "it is round" }],
   [⟨"e1", "c1", "supports"⟩]⟩

/-- Witness for C8: two concrete graphs differing only in an entailment
premise verify identically. -/
theorem claim_C8_witness :
    _verify (c8Graph "the Earth is a sphere") = _verify (c8Graph "something else entirely") :=
  claim_C8 (c8Graph "the Earth is a sphere") (c8Graph "something else entirely")
    (by decide) (by decide)

end Paladin
